import Mathlib

/-!
Verification development for the `localhost` HTTP/1.1 server.

The Rust sources are shallowly embedded: strings are `List Char`, byte
buffers are `List Nat` (each element < 256 where it matters), fallible
code returns `Option`, and filesystem or socket effects are passed in as
explicit oracles.  Definitions mirror the Rust functions of the same
name; the Rust standard-library helpers they rely on (`str::lines`,
`split_whitespace`, `trim`, `from_str_radix`, UTF-8 checks, ...) are
modelled first.
-/

set_option maxHeartbeats 1000000

abbrev Str := List Char

abbrev Bytes := List Nat

/-- Chars of a Lean string literal (used only to write concrete inputs). -/
def chars (s : String) : Str := s.toList

/-- Concatenation of a list of lists. -/
def concatAll : List (List α) → List α
  | [] => []
  | l :: ls => l ++ concatAll ls

/-- Code points with the Unicode White_Space property (what Rust's
`char::is_whitespace` tests). -/
def wsCodes : List Nat :=
  [9, 10, 11, 12, 13, 32, 0x85, 0xA0, 0x1680,
   0x2000, 0x2001, 0x2002, 0x2003, 0x2004, 0x2005, 0x2006, 0x2007,
   0x2008, 0x2009, 0x200A, 0x2028, 0x2029, 0x202F, 0x205F, 0x3000]

/-- Model of Rust `char::is_whitespace`. -/
def isWsChar (c : Char) : Bool := wsCodes.contains c.toNat

/-- Model of Rust `str::trim` (drops whitespace from both ends). -/
def trimChars (s : Str) : Str :=
  ((s.dropWhile isWsChar).reverse.dropWhile isWsChar).reverse

/-- Helper for `splitWs` carrying the current token (reversed). -/
def splitWsAux : Str → Str → List Str
  | [], cur => if cur = [] then [] else [cur.reverse]
  | c :: rest, cur =>
    if isWsChar c then
      if cur = [] then splitWsAux rest [] else cur.reverse :: splitWsAux rest []
    else splitWsAux rest (c :: cur)

/-- Model of Rust `str::split_whitespace`. -/
def splitWs (s : Str) : List Str := splitWsAux s []

/-- Helper for `splitCh` carrying the current piece (reversed). -/
def splitChAux (sep : Char) : Str → Str → List Str
  | [], cur => [cur.reverse]
  | c :: rest, cur =>
    if c = sep then cur.reverse :: splitChAux sep rest []
    else splitChAux sep rest (c :: cur)

/-- Model of Rust `str::split(sep)` for a single-char separator: empty
pieces are kept, and the empty string yields one empty piece. -/
def splitCh (sep : Char) (s : Str) : List Str := splitChAux sep s []

/-- Model of Rust `str::split_once(sep)`: split at the first occurrence. -/
def splitOnceCh (sep : Char) : Str → Option (Str × Str)
  | [] => none
  | c :: rest =>
    if c = sep then some ([], rest)
    else (splitOnceCh sep rest).map (fun p => (c :: p.1, p.2))

/-- Drop one trailing carriage return, as Rust `str::lines` does per line. -/
def stripCr (l : Str) : Str :=
  if l.getLast? = some (Char.ofNat 13) then l.dropLast else l

/-- Model of Rust `str::lines`: split at newline, drop a final empty piece
produced by a trailing newline, strip one trailing CR per line. -/
def rustLines (s : Str) : List Str :=
  if s = [] then []
  else
    let parts := splitCh (Char.ofNat 10) s
    let parts := if parts.getLast? = some [] then parts.dropLast else parts
    parts.map stripCr

/-- Position of the first occurrence of `pat` (assumed nonempty), i.e.
Rust `buffer.windows(pat.len()).position(|w| w == pat)`. -/
def findSeqPos [DecidableEq α] (pat : List α) : List α → Option Nat
  | [] => none
  | a :: rest =>
    if pat <+: (a :: rest) then some 0
    else (findSeqPos pat rest).map (· + 1)

/-- Model of Rust `str::contains` for a nonempty literal pattern. -/
def containsSub (s pat : Str) : Bool := (findSeqPos pat s).isSome

/-- Model of Rust `str::starts_with` for a literal pattern. -/
def startsWithSub (s pat : List α) [DecidableEq α] : Bool := decide (pat <+: s)

/-- Model of Rust `str::ends_with` for a literal pattern. -/
def endsWithSub (s pat : Str) : Bool := decide (pat <:+ s)

/-- ASCII lowercasing of one char (Rust `u8::to_ascii_lowercase`). -/
def lowerChar (c : Char) : Char :=
  if 65 ≤ c.toNat ∧ c.toNat ≤ 90 then Char.ofNat (c.toNat + 32) else c

/-- ASCII uppercasing of one char. -/
def upperChar (c : Char) : Char :=
  if 97 ≤ c.toNat ∧ c.toNat ≤ 122 then Char.ofNat (c.toNat - 32) else c

/-- Model of Rust `str::to_lowercase`.  The sources only ever compare the
result with ASCII literals, so the embedding uses the ASCII mapping. -/
def toLowerStr (s : Str) : Str := s.map lowerChar

/-- Model of Rust `str::to_uppercase` (ASCII mapping, see `toLowerStr`). -/
def toUpperStr (s : Str) : Str := s.map upperChar

/-- Model of Rust `str::eq_ignore_ascii_case` (this one is exactly the
ASCII mapping in Rust as well). -/
def eqIgnoreAsciiCase (a b : Str) : Bool := toLowerStr a = toLowerStr b

/-- Decimal digit value. -/
def digitVal (c : Char) : Option Nat :=
  if 48 ≤ c.toNat ∧ c.toNat ≤ 57 then some (c.toNat - 48) else none

/-- Hexadecimal digit value. -/
def hexDigitVal (c : Char) : Option Nat :=
  if 48 ≤ c.toNat ∧ c.toNat ≤ 57 then some (c.toNat - 48)
  else if 97 ≤ c.toNat ∧ c.toNat ≤ 102 then some (c.toNat - 87)
  else if 65 ≤ c.toNat ∧ c.toNat ≤ 70 then some (c.toNat - 55)
  else none

/-- Accumulate digits in the given radix; fails on a non-digit. -/
def parseDigitsAux (digVal : Char → Option Nat) (radix : Nat) :
    Str → Nat → Option Nat
  | [], acc => some acc
  | c :: rest, acc =>
    match digVal c with
    | some d => parseDigitsAux digVal radix rest (acc * radix + d)
    | none => none

/-- Drop one optional leading plus sign (Rust integer parsing). -/
def stripLeadPlus (s : Str) : Str :=
  match s with
  | c :: rest => if c = Char.ofNat 43 then rest else s
  | [] => s

/-- Model of Rust unsigned-integer parsing (`str::parse` / `from_str_radix`
at an unsigned type with 2^w values): an optional leading plus sign, then
one or more digits, rejecting values outside the type's range. -/
def parseUnsigned (digVal : Char → Option Nat) (radix bound : Nat) (s : Str) :
    Option Nat :=
  let t := stripLeadPlus s
  if t = [] then none
  else
    match parseDigitsAux digVal radix t 0 with
    | some n => if n < bound then some n else none
    | none => none

/-- Rust `str::parse::<usize>()` on a 64-bit target. -/
def parseUsize (s : Str) : Option Nat := parseUnsigned digitVal 10 (2 ^ 64) s

/-- Rust `u16::from_str` (used for CGI `Status:` codes). -/
def parseU16 (s : Str) : Option Nat := parseUnsigned digitVal 10 (2 ^ 16) s

/-- Rust `usize::from_str_radix(s, 16)` (used for chunk sizes). -/
def parseHexUsize (s : Str) : Option Nat := parseUnsigned hexDigitVal 16 (2 ^ 64) s

/-- UTF-8 encoding of one scalar value (Rust `char` encoding). -/
def utf8EncodeChar (c : Char) : Bytes :=
  let n := c.toNat
  if n < 0x80 then [n]
  else if n < 0x800 then [0xC0 + n / 64, 0x80 + n % 64]
  else if n < 0x10000 then
    [0xE0 + n / 4096, 0x80 + n / 64 % 64, 0x80 + n % 64]
  else
    [0xF0 + n / 262144, 0x80 + n / 4096 % 64, 0x80 + n / 64 % 64, 0x80 + n % 64]

/-- UTF-8 encoding of a string. -/
def utf8Encode (s : Str) : Bytes := concatAll (s.map utf8EncodeChar)

/-- Bytes of a Lean string literal (used only to write concrete inputs). -/
def bytes (s : String) : Bytes := utf8Encode s.toList

/-- Decode one UTF-8 sequence starting with byte `b` followed by `rest`:
the scalar and the remaining bytes, or `none` if invalid (overlong forms,
surrogates and out-of-range values are rejected). -/
def utf8DecodeOne (b : Nat) (rest : Bytes) : Option (Char × Bytes) :=
  if b < 0x80 then some (Char.ofNat b, rest)
  else if 0xC2 ≤ b ∧ b ≤ 0xDF then
    match rest with
    | b2 :: rest2 =>
      if 0x80 ≤ b2 ∧ b2 ≤ 0xBF then
        some (Char.ofNat ((b - 0xC0) * 64 + (b2 - 0x80)), rest2)
      else none
    | [] => none
  else if 0xE0 ≤ b ∧ b ≤ 0xEF then
    match rest with
    | b2 :: b3 :: rest3 =>
      if (if b = 0xE0 then 0xA0 else 0x80) ≤ b2 ∧
          b2 ≤ (if b = 0xED then 0x9F else 0xBF) ∧
          0x80 ≤ b3 ∧ b3 ≤ 0xBF then
        some (Char.ofNat ((b - 0xE0) * 4096 + (b2 - 0x80) * 64 + (b3 - 0x80)), rest3)
      else none
    | _ => none
  else if 0xF0 ≤ b ∧ b ≤ 0xF4 then
    match rest with
    | b2 :: b3 :: b4 :: rest4 =>
      if (if b = 0xF0 then 0x90 else 0x80) ≤ b2 ∧
          b2 ≤ (if b = 0xF4 then 0x8F else 0xBF) ∧
          0x80 ≤ b3 ∧ b3 ≤ 0xBF ∧ 0x80 ≤ b4 ∧ b4 ≤ 0xBF then
        some
          (Char.ofNat ((b - 0xF0) * 262144 + (b2 - 0x80) * 4096 +
            (b3 - 0x80) * 64 + (b4 - 0x80)), rest4)
      else none
    | _ => none
  else none

/-- Decoding loop with fuel: each step consumes at least one byte, so any
fuel of at least the buffer length is exact and the `none` at exhausted
fuel is unreachable from `utf8Decode`. -/
def utf8DecodeFuel : Nat → Bytes → Option Str
  | _, [] => some []
  | 0, _ :: _ => none
  | fuel + 1, b :: rest =>
    match utf8DecodeOne b rest with
    | some (c, rest2) => (utf8DecodeFuel fuel rest2).map (fun cs => c :: cs)
    | none => none

/-- Model of `std::str::from_utf8`: strict UTF-8 validation and decoding. -/
def utf8Decode (bs : Bytes) : Option Str := utf8DecodeFuel bs.length bs

/-- Lookup in a `HashMap` modelled as an association list. -/
def getA (l : List (Str × Str)) (k : Str) : Option Str :=
  match l with
  | [] => none
  | (k2, v) :: rest => if k2 = k then some v else getA rest k

/-- `HashMap::insert` modelled on an association list: replace the value
of an existing key (keeping its position), else append. -/
def insertA (l : List (Str × Str)) (k : Str) (v : Str) : List (Str × Str) :=
  match l with
  | [] => [(k, v)]
  | (k2, v2) :: rest =>
    if k2 = k then (k2, v) :: rest else (k2, v2) :: insertA rest k v

/-! ## `src/http/request.rs` -/

/-- `HttpRequest` from `src/http/request.rs`; the `HashMap` of headers is
modelled as an association list with `getA`/`insertA`. -/
structure HttpRequest where
  method : Str
  path : Str
  query : Str
  version : Str
  headers : List (Str × Str)
  body : Bytes
deriving DecidableEq, Repr

/-- `RequestLine` from `src/http/request.rs`. -/
structure RequestLine where
  method : Str
  path : Str
  query : Str
  version : Str
deriving DecidableEq, Repr

/-- `find_double_crlf` from `src/http/request.rs`. -/
def find_double_crlf (buffer : Bytes) : Option Nat :=
  findSeqPos [13, 10, 13, 10] buffer

/-- `parse_request_line` from `src/http/request.rs`. -/
def parse_request_line (line : Str) : Option RequestLine :=
  match splitWs line with
  | method :: target :: version :: _ =>
    match splitOnceCh (Char.ofNat 63) target with
    | some (p, q) => some ⟨method, p, q, version⟩
    | none => some ⟨method, target, [], version⟩
  | _ => none

/-- `parse_headers` from `src/http/request.rs`: each line is split at the
first colon, both sides trimmed, inserted into the map (last one wins). -/
def parse_headers (lines : List Str) : List (Str × Str) :=
  lines.foldl
    (fun headers line =>
      match splitOnceCh (Char.ofNat 58) line with
      | some (key, value) => insertA headers (trimChars key) (trimChars value)
      | none => headers)
    []

/-- Loop body of `parse_chunked_from_buffer` from `src/http/request.rs`,
written with the remaining data instead of a `pos` index and with a fuel
argument standing for the loop bound (the Rust loop terminates because
every iteration advances `pos` by at least three bytes, so any fuel of at
least `data.length + 1` is enough). -/
def chunkLoop : Nat → Bytes → Bytes → Option Bytes
  | 0, _, _ => none
  | fuel + 1, data, body =>
    match findSeqPos [13, 10] data with
    | none => none
    | some lineEnd =>
      match utf8Decode (data.take lineEnd) with
      | none => none
      | some sizeStr =>
        match parseHexUsize (trimChars sizeStr) with
        | none => none
        | some size =>
          if size = 0 then some body
          else if lineEnd + 2 + size + 2 > data.length then none
          else
            chunkLoop fuel ((data.drop (lineEnd + 2)).drop (size + 2))
              (body ++ (data.drop (lineEnd + 2)).take size)

/-- `parse_chunked_from_buffer` from `src/http/request.rs`. -/
def parse_chunked_from_buffer (data : Bytes) : Option Bytes :=
  chunkLoop (data.length + 1) data []

/-- `HttpRequest::parse` from `src/http/request.rs`. -/
def HttpRequest.parse (buffer : Bytes) : Option HttpRequest :=
  match find_double_crlf buffer with
  | none => none
  | some headers_end =>
    match utf8Decode (buffer.take headers_end) with
    | none => none
    | some header_text =>
      match (rustLines header_text).head? with
      | none => none
      | some first_line =>
        match parse_request_line first_line with
        | none => none
        | some rl =>
          let headers := parse_headers ((rustLines header_text).drop 1)
          let body_start := headers_end + 4
          match getA headers (chars "Content-Length") with
          | some len_str =>
            match parseUsize len_str with
            | none => none
            | some expected_size =>
              if buffer.length - body_start < expected_size then none
              else
                some ⟨rl.method, rl.path, rl.query, rl.version, headers,
                  (buffer.drop body_start).take expected_size⟩
          | none =>
            match getA headers (chars "Transfer-Encoding") with
            | some te =>
              if containsSub (toLowerStr te) (chars "chunked") then
                match parse_chunked_from_buffer (buffer.drop body_start) with
                | none => none
                | some body =>
                  some ⟨rl.method, rl.path, rl.query, rl.version, headers, body⟩
              else
                some ⟨rl.method, rl.path, rl.query, rl.version, headers, []⟩
            | none =>
              some ⟨rl.method, rl.path, rl.query, rl.version, headers, []⟩

/-! ## `src/http/response.rs` -/

/-- Decimal rendering of a natural number (Rust `Display` for integers). -/
def natRepr (n : Nat) : Str := (Nat.repr n).toList

/-- `HttpResponse` from `src/http/response.rs`.  The header `HashMap` is
modelled as an association list in insertion order (`insertA` replaces in
place); the iteration order of the Rust map is unspecified, the list
order stands for it. -/
structure HttpResponse where
  status_code : Nat
  status_text : Str
  headers : List (Str × Str)
  body : Bytes
deriving DecidableEq, Repr

/-- `HttpResponse::new`. -/
def HttpResponse.new (status_code : Nat) (status_text : Str) : HttpResponse :=
  ⟨status_code, status_text, [], []⟩

/-- `HttpResponse::set_header`. -/
def HttpResponse.set_header (r : HttpResponse) (key value : Str) : HttpResponse :=
  { r with headers := insertA r.headers key value }

/-- `HttpResponse::set_body` (stores the UTF-8 bytes of the text). -/
def HttpResponse.set_body (r : HttpResponse) (text : Str) : HttpResponse :=
  { r with body := utf8Encode text }

/-- `HttpResponse::set_body_bytes`. -/
def HttpResponse.set_body_bytes (r : HttpResponse) (b : Bytes) : HttpResponse :=
  { r with body := b }

/-- The rendering of one header line in `to_bytes`. -/
def renderHeader (kv : Str × Str) : Bytes :=
  utf8Encode (kv.1 ++ chars ": " ++ kv.2 ++ chars "\r\n")

/-- `HttpResponse::to_bytes` from `src/http/response.rs`. -/
def HttpResponse.to_bytes (r : HttpResponse) : Bytes :=
  let output := utf8Encode
    (chars "HTTP/1.1 " ++ natRepr r.status_code ++ chars " " ++
      r.status_text ++ chars "\r\n")
  let output := r.headers.foldl (fun out kv => out ++ renderHeader kv) output
  let output :=
    if (getA r.headers (chars "Content-Length")).isSome then output
    else
      output ++
        utf8Encode (chars "Content-Length: " ++ natRepr r.body.length ++ chars "\r\n")
  let output := output ++ [13, 10]
  output ++ r.body

/-- `HttpResponse::to_bytes` with the `HashMap` iteration order made
explicit: `iter` is the sequence of entries that the
`for (key, value) in &self.headers` loop yields, an arbitrary permutation
of the stored entries (the iteration order of the Rust
`std::collections::HashMap` is unspecified and randomized per process).
The `contains_key` test is on the map itself and does not depend on the
iteration order. -/
def HttpResponse.to_bytes_iter (r : HttpResponse) (iter : List (Str × Str)) : Bytes :=
  let output := utf8Encode
    (chars "HTTP/1.1 " ++ natRepr r.status_code ++ chars " " ++
      r.status_text ++ chars "\r\n")
  let output := iter.foldl (fun out kv => out ++ renderHeader kv) output
  let output :=
    if (getA r.headers (chars "Content-Length")).isSome then output
    else
      output ++
        utf8Encode (chars "Content-Length: " ++ natRepr r.body.length ++ chars "\r\n")
  let output := output ++ [13, 10]
  output ++ r.body

/-- A response storing two headers, `A: x` inserted before `B: y` (input
of the header-order counterexample). -/
def respAB : HttpResponse :=
  (HttpResponse.new 200 (chars "OK")).set_header (chars "A") (chars "x")
    |>.set_header (chars "B") (chars "y")

/-- `HttpResponse::ok`. -/
def HttpResponse.ok : HttpResponse := HttpResponse.new 200 (chars "OK")

/-- `HttpResponse::not_found`. -/
def HttpResponse.not_found : HttpResponse := HttpResponse.new 404 (chars "Not Found")

/-- `HttpResponse::bad_request`. -/
def HttpResponse.bad_request : HttpResponse := HttpResponse.new 400 (chars "Bad Request")

/-- `HttpResponse::forbidden`. -/
def HttpResponse.forbidden : HttpResponse := HttpResponse.new 403 (chars "Forbidden")

/-- `HttpResponse::ok_with_message`. -/
def HttpResponse.ok_with_message (msg : Str) : HttpResponse :=
  HttpResponse.ok.set_body msg

/-! ## `src/config/types.rs` -/

/-- `RouteConfig` from `src/config/types.rs`. -/
structure RouteConfig where
  path : Str
  methods : List Str
  root : Str
  default_file : Option Str
  autoindex : Bool
  cgi : Option Str
  redirect : Option Str
deriving DecidableEq, Repr

/-- `VHost` from `src/config/types.rs`. -/
structure VHost where
  name : Str
  error_path : Str
  routes : List RouteConfig
deriving DecidableEq, Repr

/-- `ServerConfig` from `src/config/types.rs`. -/
structure ServerConfig where
  listen_addresses : List Str
  client_body_size_limit : Nat
  routes : List RouteConfig
  error_path : Str
  vhosts : List VHost
deriving DecidableEq, Repr

/-! ## Path components (Rust `std::path`, Unix rules)

`Path::components` on Unix: an optional root, separators collapsed, `.`
segments normalized away except a leading one on a relative path. -/

/-- One component of a Unix path. -/
inductive PathComp
  | rootDir
  | curDir
  | parentDir
  | normal (seg : Str)
deriving DecidableEq, Repr

/-- Classify one nonempty path segment. -/
def segToComp (s : Str) : PathComp :=
  if s = chars "." then PathComp.curDir
  else if s = chars ".." then PathComp.parentDir
  else PathComp.normal s

/-- Model of Rust `Path::components` (Unix). -/
def pathComponents (p : Str) : List PathComp :=
  let hasRoot := startsWithSub p (chars "/")
  let comps := ((splitCh (Char.ofNat 47) p).filter (· ≠ [])).map segToComp
  let comps :=
    if hasRoot then comps.filter (· ≠ PathComp.curDir)
    else
      match comps with
      | PathComp.curDir :: rest =>
        PathComp.curDir :: rest.filter (· ≠ PathComp.curDir)
      | l => l.filter (· ≠ PathComp.curDir)
  if hasRoot then PathComp.rootDir :: comps else comps

/-- Model of `PathBuf::push` for a relative segment, on the rendered
string (the config bases in this repository do not end in a slash). -/
def pushPath (b seg : Str) : Str :=
  if b = [] then seg else b ++ chars "/" ++ seg

/-- Model of Rust `Path::starts_with` (component-wise prefix). -/
def pathStartsWith (p base : Str) : Bool :=
  decide (pathComponents base <+: pathComponents p)

/-- Model of Rust `str::strip_prefix`. -/
def stripPreOpt (s pat : Str) : Option Str :=
  if pat <+: s then some (s.drop pat.length) else none

/-- Model of Rust `str::trim_start_matches` for a char pattern. -/
def trimStartMatchesCh (s : Str) (c : Char) : Str := s.dropWhile (· = c)

/-! ## `src/network/router.rs` -/

/-- The filesystem effects the router performs, passed in as an oracle:
`canonicalize` and `serve_file` return `none` where the Rust calls error. -/
structure Fs where
  canonicalize : Str → Option Str
  serve_file : Str → Option Bytes
  is_file : Str → Bool
  is_dir : Str → Bool

/-- The handler functions `route_request` dispatches to
(`crate::handlers::{upload_file, delete_file, run_cgi, list_directory}`),
passed in as parameters; `delete_file` is modelled concretely below. -/
structure Handlers where
  upload_file : HttpRequest → Nat → Str → HttpResponse
  delete_file : HttpRequest → HttpResponse
  run_cgi : Str → Str → HttpRequest → HttpResponse
  list_directory : Str → Str → Str → HttpResponse

/-- `url_decode` from `src/network/router.rs`: `%HH` escapes become the
byte value as a char, `+` becomes a space, malformed escapes are kept. -/
def url_decode : Str → Str
  | [] => []
  | c :: rest =>
    if c = Char.ofNat 37 then
      match rest with
      | a :: b :: rest2 =>
        match parseUnsigned hexDigitVal 16 256 [a, b] with
        | some byte => Char.ofNat byte :: url_decode rest2
        | none => Char.ofNat 37 :: a :: b :: url_decode rest2
      | [a] => Char.ofNat 37 :: a :: url_decode []
      | [] => Char.ofNat 37 :: url_decode []
    else if c = Char.ofNat 43 then Char.ofNat 32 :: url_decode rest
    else c :: url_decode rest

/-- `is_path_safe` from `src/network/router.rs`. -/
def is_path_safe (path : Str) : Bool :=
  let decoded := url_decode path
  if containsSub decoded (chars "..") then false
  else if decoded.contains (Char.ofNat 0) then false
  else if containsSub decoded (chars "//") then false
  else true

/-- The component walk inside `sanitize_path`: reject NUL bytes, reject
`..` and absolute components, skip `.`, push normal segments. -/
def sanitizeWalk : List PathComp → Str → Option Str
  | [], result => some result
  | PathComp.normal seg :: rest, result =>
    if seg.contains (Char.ofNat 0) then none
    else sanitizeWalk rest (pushPath result seg)
  | PathComp.curDir :: rest, result => sanitizeWalk rest result
  | PathComp.parentDir :: _, _ => none
  | PathComp.rootDir :: _, _ => none

/-- `sanitize_path` from `src/network/router.rs`. -/
def sanitize_path (fs : Fs) (base user_path : Str) : Option Str :=
  let base_path := (fs.canonicalize base).getD base
  let decoded := url_decode user_path
  match sanitizeWalk (pathComponents decoded) base with
  | none => none
  | some result =>
    match fs.canonicalize result with
    | some canonical =>
      if pathStartsWith canonical base_path then some result else none
    | none =>
      if pathStartsWith result base && ! containsSub result (chars "..") then
        some result
      else none

/-- Rust `Iterator::max_by_key`: the last element among equal maxima. -/
def maxByKeyLast (key : α → Nat) (l : List α) : Option α :=
  l.foldl
    (fun acc x =>
      match acc with
      | none => some x
      | some m => if key m ≤ key x then some x else some m)
    none

/-- `find_route` from `src/network/router.rs`. -/
def find_route (request : HttpRequest) (routes : List RouteConfig) :
    Option RouteConfig :=
  maxByKeyLast (fun route => route.path.length)
    (routes.filter (fun route => startsWithSub request.path route.path))

/-- `find_vhost` from `src/network/router.rs`. -/
def find_vhost (request : HttpRequest) (vhosts : List VHost) : Option VHost :=
  let host := (getA request.headers (chars "Host")).map
    (fun h => (splitCh (Char.ofNat 58) h).headD [])
  vhosts.find? (fun v => host = some v.name)

/-- `error_response` from `src/network/router.rs`. -/
def error_response (fs : Fs) (code : Nat) (error_path : Str) (message : Str) :
    HttpResponse :=
  let error_file := error_path ++ chars "/" ++ natRepr code ++ chars ".html"
  match fs.serve_file error_file with
  | some content =>
    ((HttpResponse.new code message).set_header (chars "Content-Type")
      (chars "text/html")).set_body_bytes content
  | none =>
    (HttpResponse.new code message).set_body
      (chars "<h1>" ++ natRepr code ++ chars " - " ++ message ++ chars "</h1>")

/-- `get_content_type` from `src/network/router.rs`. -/
def get_content_type (file_path : Str) : Str :=
  if endsWithSub file_path (chars ".html") then chars "text/html"
  else if endsWithSub file_path (chars ".css") then chars "text/css"
  else if endsWithSub file_path (chars ".js") then chars "application/javascript"
  else if endsWithSub file_path (chars ".json") then chars "application/json"
  else if endsWithSub file_path (chars ".png") then chars "image/png"
  else if endsWithSub file_path (chars ".jpg") || endsWithSub file_path (chars ".jpeg") then
    chars "image/jpeg"
  else if endsWithSub file_path (chars ".gif") then chars "image/gif"
  else if endsWithSub file_path (chars ".txt") then chars "text/plain"
  else chars "application/octet-stream"

/-- The tail of `route_request` once a route has matched (method gate,
redirect, upload/delete dispatch, CGI dispatch, file serving). -/
def handleMatchedRoute (fs : Fs) (hd : Handlers) (request : HttpRequest)
    (config : ServerConfig) (route : RouteConfig) (error_path : Str) :
    HttpResponse :=
  if ! route.methods.any (fun m => eqIgnoreAsciiCase m request.method) then
    error_response fs 405 error_path (chars "Method Not Allowed")
  else
    match route.redirect with
    | some target =>
      (HttpResponse.new 302 (chars "Found")).set_header (chars "Location") target
    | none =>
      let uploadResult : Option HttpResponse :=
        if containsSub route.path (chars "/upload") then
          if eqIgnoreAsciiCase request.method (chars "POST") then
            some
              (if config.client_body_size_limit < request.body.length then
                error_response fs 413 error_path (chars "Payload Too Large")
              else hd.upload_file request config.client_body_size_limit error_path)
          else if eqIgnoreAsciiCase request.method (chars "DELETE") then
            some (hd.delete_file request)
          else none
        else none
      match uploadResult with
      | some resp => resp
      | none =>
        match route.cgi with
        | some _ =>
          let after_route :=
            trimStartMatchesCh ((stripPreOpt request.path route.path).getD request.path)
              (Char.ofNat 47)
          if after_route = [] then error_response fs 404 error_path (chars "Not Found")
          else
            match sanitize_path fs route.root after_route with
            | some safe_path => hd.run_cgi safe_path request.path request
            | none => error_response fs 403 error_path (chars "Forbidden")
        | none =>
          let filePathOpt : Option Str :=
            if route.path = chars "/" then
              let req_path := trimStartMatchesCh request.path (Char.ofNat 47)
              if req_path = [] then
                match route.default_file with
                | some df => some (route.root ++ chars "/" ++ df)
                | none => some route.root
              else sanitize_path fs route.root req_path
            else
              let after :=
                trimStartMatchesCh ((stripPreOpt request.path route.path).getD [])
                  (Char.ofNat 47)
              if after = [] then some route.root
              else sanitize_path fs route.root after
          match filePathOpt with
          | none => error_response fs 403 error_path (chars "Forbidden")
          | some file_path =>
            if fs.is_file file_path then
              match fs.serve_file file_path with
              | some content =>
                (HttpResponse.ok.set_header (chars "Content-Type")
                  (get_content_type file_path)).set_body_bytes content
              | none => error_response fs 404 error_path (chars "Not Found")
            else if fs.is_dir file_path then
              let byDefault : Option HttpResponse :=
                match route.default_file with
                | some df =>
                  match fs.serve_file (file_path ++ chars "/" ++ df) with
                  | some content =>
                    some
                      ((HttpResponse.ok.set_header (chars "Content-Type")
                        (chars "text/html")).set_body_bytes content)
                  | none => none
                | none => none
              match byDefault with
              | some resp => resp
              | none =>
                if route.autoindex then
                  hd.list_directory file_path request.path route.root
                else error_response fs 403 error_path (chars "Forbidden")
            else error_response fs 404 error_path (chars "Not Found")

/-- `route_request` from `src/network/router.rs`. -/
def route_request (fs : Fs) (hd : Handlers) (request : HttpRequest)
    (config : ServerConfig) : HttpResponse :=
  if request.version ≠ chars "HTTP/1.1" then
    error_response fs 400 config.error_path (chars "Bad Request")
  else if ! is_path_safe request.path then
    error_response fs 403 config.error_path (chars "Forbidden")
  else if config.client_body_size_limit < request.body.length then
    error_response fs 413 config.error_path (chars "Payload Too Large")
  else
    let pair :=
      if config.vhosts ≠ [] then
        match find_vhost request config.vhosts with
        | some vhost => (vhost.routes, vhost.error_path)
        | none => (config.routes, config.error_path)
      else (config.routes, config.error_path)
    match find_route request pair.1 with
    | some route => handleMatchedRoute fs hd request config route pair.2
    | none => error_response fs 404 pair.2 (chars "Not Found")

/-! ## `src/handlers/remove_file.rs` -/

/-- `extract_file_path` from `src/handlers/remove_file.rs`. -/
def extract_file_path (uri : Str) : Str :=
  let path := trimStartMatchesCh uri (Char.ofNat 47)
  if startsWithSub path (chars "upload") then
    trimStartMatchesCh (path.drop 6) (Char.ofNat 47)
  else path

/-- The component walk in `build_safe_path`: push normal segments, skip
`.`, and `break` (stop, keeping what was built) on anything else. -/
def buildWalk : List PathComp → Str → Str
  | [], result => result
  | PathComp.normal seg :: rest, result => buildWalk rest (pushPath result seg)
  | PathComp.curDir :: rest, result => buildWalk rest result
  | PathComp.parentDir :: _, result => result
  | PathComp.rootDir :: _, result => result

/-- `build_safe_path` from `src/handlers/remove_file.rs`. -/
def build_safe_path (base_dir relative : Str) : Str :=
  buildWalk (pathComponents relative) base_dir

/-- `is_safe_path` from `src/handlers/remove_file.rs`. -/
def is_safe_path (path : Str) : Bool :=
  pathStartsWith path (chars "uploads") && ! containsSub path (chars "..")

/-- `delete_file` from `src/handlers/remove_file.rs`; `removeOk` tells
whether `fs::remove_file` succeeds on a given path. -/
def delete_file (removeOk : Str → Bool) (request : HttpRequest) : HttpResponse :=
  let file_path := extract_file_path request.path
  let full_path := build_safe_path (chars "uploads") file_path
  if ! is_safe_path full_path then HttpResponse.forbidden
  else if removeOk full_path then
    HttpResponse.ok_with_message (chars "File deleted successfully")
  else HttpResponse.not_found

/-! ## `src/handlers/cgi.rs` (output parsing, lines 210-256) -/

/-- `HttpResponse::internal_error`. -/
def HttpResponse.internal_error : HttpResponse :=
  HttpResponse.new 500 (chars "Internal Server Error")

/-- Model of `String::from_utf8_lossy`.  Valid input decodes exactly; the
fallback for invalid input substitutes U+FFFD per offending byte (every
theorem below only exercises the valid branch). -/
def utf8DecodeLossy (bs : Bytes) : Str :=
  match utf8Decode bs with
  | some s => s
  | none => bs.map (fun b => if b < 0x80 then Char.ofNat b else Char.ofNat 0xFFFD)

/-- `extract_cgi_headers_body` from `src/handlers/cgi.rs`: split at the
first `\r\n\r\n`, else at the first `\n\n`, else all body. -/
def extract_cgi_headers_body (raw : Bytes) : Str × Bytes :=
  match findSeqPos [13, 10, 13, 10] raw with
  | some pos => (utf8DecodeLossy (raw.take pos), raw.drop (pos + 4))
  | none =>
    match findSeqPos [10, 10] raw with
    | some pos => (utf8DecodeLossy (raw.take pos), raw.drop (pos + 2))
    | none => ([], raw)

/-- The processing of one CGI header line (loop body at
`src/handlers/cgi.rs` lines 227-248). -/
def cgiHeaderLine (resp : HttpResponse) (rawLine : Str) : HttpResponse :=
  let line := trimChars rawLine
  if line = [] then resp
  else
    match splitOnceCh (Char.ofNat 58) line with
    | some (k, v) =>
      let key := trimChars k
      let val := trimChars v
      if eqIgnoreAsciiCase key (chars "Status") then
        match splitOnceCh (Char.ofNat 32) val with
        | some (code_str, text) =>
          match parseU16 code_str with
          | some code => { resp with status_code := code, status_text := text }
          | none => resp
        | none => resp
      else resp.set_header key val
    | none => resp

/-- The response construction from the accumulated CGI stdout and stderr
(`run_cgi`, `src/handlers/cgi.rs` lines 210-256). -/
def buildCgiResponse (stdout_buf stderr_buf : Bytes) : HttpResponse :=
  if stdout_buf = [] then
    let err_msg := utf8DecodeLossy stderr_buf
    if trimChars err_msg = [] then
      HttpResponse.internal_error.set_body (chars "CGI produced no output")
    else
      HttpResponse.internal_error.set_body (chars "CGI error: " ++ err_msg)
  else
    let split := extract_cgi_headers_body stdout_buf
    let resp := (rustLines split.1).foldl cgiHeaderLine HttpResponse.ok
    let resp :=
      if (getA resp.headers (chars "Content-Type")).isSome then resp
      else resp.set_header (chars "Content-Type") (chars "text/plain; charset=utf-8")
    resp.set_body_bytes split.2

/-- The `Key` a CGI header line contributes (mirrors the trim/split steps
of `cgiHeaderLine`); `none` when the line is blank or has no colon. -/
def cgiKeyOf (line : Str) : Option Str :=
  let l := trimChars line
  if l = [] then none
  else
    match splitOnceCh (Char.ofNat 58) l with
    | some p => some (trimChars p.1)
    | none => none

/-- The `Value` a CGI header line contributes. -/
def cgiValOf (line : Str) : Option Str :=
  let l := trimChars line
  if l = [] then none
  else
    match splitOnceCh (Char.ofNat 58) l with
    | some p => some (trimChars p.2)
    | none => none

/-- The status a `Status: <code> <text>` pseudo-header line sets, when it
parses (mirrors the branch conditions of `cgiHeaderLine`). -/
def cgiStatusOf (line : Str) : Option (Nat × Str) :=
  let l := trimChars line
  if l = [] then none
  else
    match splitOnceCh (Char.ofNat 58) l with
    | some p =>
      if eqIgnoreAsciiCase (trimChars p.1) (chars "Status") = true then
        match splitOnceCh (Char.ofNat 32) (trimChars p.2) with
        | some q => (parseU16 q.1).map (fun n => (n, q.2))
        | none => none
      else none
    | none => none

/-- The properties C6 asserts of the response built from a CGI stdout
whose header section decodes to `head` and whose remainder is `body`. -/
def cgiRespProps (stdout stderr : Bytes) (head : Str) (body : Bytes) : Prop :=
  (buildCgiResponse stdout stderr).body = body ∧
    (∀ k v, (k, v) ∈ (buildCgiResponse stdout stderr).headers →
      eqIgnoreAsciiCase k (chars "Status") = false) ∧
    ((∀ line ∈ rustLines head, cgiKeyOf line ≠ some (chars "Content-Type")) →
      getA (buildCgiResponse stdout stderr).headers (chars "Content-Type") =
        some (chars "text/plain; charset=utf-8")) ∧
    (∀ k v, (k, v) ∈ (buildCgiResponse stdout stderr).headers →
      (∃ line ∈ rustLines head, cgiKeyOf line = some k ∧ cgiValOf line = some v) ∨
        (k = chars "Content-Type" ∧ v = chars "text/plain; charset=utf-8")) ∧
    (∀ pre ln post n t, rustLines head = pre ++ ln :: post →
      cgiStatusOf ln = some (n, t) → (∀ m ∈ post, cgiStatusOf m = none) →
      (buildCgiResponse stdout stderr).status_code = n ∧
        (buildCgiResponse stdout stderr).status_text = t) ∧
    ((∀ ln ∈ rustLines head, cgiStatusOf ln = none) →
      (buildCgiResponse stdout stderr).status_code = 200 ∧
        (buildCgiResponse stdout stderr).status_text = chars "OK")

/-! ## `src/config/parser.rs` -/

/-- `ParsingContext` from `src/config/parser.rs`. -/
inductive ParsingContext
  | topLevel
  | insideRoute
deriving DecidableEq, Repr

/-- The mutable locals of `parse_config_string`, as a fold state. -/
structure PState where
  listen_addresses : List Str
  client_body_size_limit : Nat
  error_path : Str
  routes : List RouteConfig
  vhosts : List VHost
  context : ParsingContext
  in_vhost : Bool
  current_route_path : Str
  current_route_methods : List Str
  current_route_root : Str
  current_default_file : Str
  current_route_autoindex : Bool
  current_vhost : Option VHost
  current_cgi : Option Str
  current_redirect : Option Str
deriving Repr

/-- Initial parser state (`src/config/parser.rs` lines 11-27). -/
def initPState : PState :=
  ⟨[], 10 * 1024 * 1024, [], [], [], ParsingContext.topLevel, false,
    [], [], [], [], false, none, none, none⟩

/-- The `listen` directive's inner loop over comma-separated addresses. -/
def addListenAddrs (st : PState) (value : Str) : PState :=
  (splitCh (Char.ofNat 44) value).foldl
    (fun st addr =>
      let trimmed := trimChars addr
      if trimmed = [] then st
      else if trimmed.contains (Char.ofNat 58) then
        if st.listen_addresses.contains trimmed then st
        else { st with listen_addresses := st.listen_addresses ++ [trimmed] }
      else st)
    st

/-- Closing a route block (`}` inside a route): validate and save the
route, then reset the per-route locals. -/
def closeRoute (st : PState) : PState :=
  let st :=
    if st.current_route_root = [] ∧ st.current_redirect = none then st
    else if st.current_route_methods = [] then st
    else
      let route : RouteConfig :=
        ⟨st.current_route_path, st.current_route_methods, st.current_route_root,
          some (if st.current_default_file = [] then chars "index.html"
            else st.current_default_file),
          st.current_route_autoindex, st.current_cgi, st.current_redirect⟩
      match st.current_vhost with
      | some vh =>
        { st with current_vhost := some { vh with routes := vh.routes ++ [route] } }
      | none => { st with routes := st.routes ++ [route] }
  { st with
    current_route_path := [],
    current_route_methods := [],
    current_route_root := [],
    current_default_file := [],
    current_route_autoindex := false,
    current_cgi := none,
    current_redirect := none,
    context := ParsingContext.topLevel }

/-- The comment-stripping and trimming applied to each config line. -/
def effectiveLine (rawLine : Str) : Str :=
  let line := trimChars rawLine
  match findSeqPos [Char.ofNat 35] line with
  | some pos => trimChars (line.take pos)
  | none => line

/-- The top-level directive handling of the line loop. -/
def processTopLevel (st : PState) (line : Str) : PState :=
  if startsWithSub line (chars "vhost") ∧ endsWithSub line (chars "\x7b") then
        let st :=
          match st.current_vhost with
          | some vh => { st with vhosts := st.vhosts ++ [vh], current_vhost := none }
          | none => st
        let parts := splitWs line
        if parts.length < 3 ∨ parts.getD 2 [] ≠ chars "\x7b" then st
        else
          { st with
            current_vhost := some ⟨parts.getD 1 [], st.error_path, []⟩,
            in_vhost := true }
      else if startsWithSub line (chars "route") ∧ endsWithSub line (chars "\x7b") then
        let parts := splitWs line
        if parts.length < 3 ∨ parts.getD 2 [] ≠ chars "\x7b" then st
        else
          { st with
            current_route_path := parts.getD 1 [],
            context := ParsingContext.insideRoute }
      else if startsWithSub line (chars "listen") then
        match (splitCh (Char.ofNat 61) line).get? 1 with
        | none => st
        | some value =>
          let value := trimChars value
          if value = [] then st else addListenAddrs st value
      else if startsWithSub line (chars "client_body_size_limit") then
        match (splitCh (Char.ofNat 61) line).get? 1 with
        | none => st
        | some value =>
          match parseUsize (trimChars value) with
          | some size => { st with client_body_size_limit := size }
          | none => st
      else if startsWithSub line (chars "error_path") then
        match (splitCh (Char.ofNat 61) line).get? 1 with
        | none => st
        | some value =>
          let path := trimChars value
          if path = [] then st
          else
            let st := { st with error_path := path }
            match st.current_vhost with
            | some vh => { st with current_vhost := some { vh with error_path := path } }
            | none => st
  else st

/-- The route-block directive handling of the line loop. -/
def processInsideRoute (st : PState) (line : Str) : PState :=
  if line = chars "\x7d" then closeRoute st
      else if startsWithSub line (chars "methods") then
        match (splitCh (Char.ofNat 61) line).get? 1 with
        | none => st
        | some value =>
          let methods :=
            ((splitCh (Char.ofNat 44) value).map
              (fun m => toUpperStr (trimChars m))).filter (· ≠ [])
          if methods = [] then st else { st with current_route_methods := methods }
      else if startsWithSub line (chars "default_file") then
        match (splitCh (Char.ofNat 61) line).get? 1 with
        | none => st
        | some value =>
          let val := trimChars value
          if val = [] then st else { st with current_default_file := val }
      else if startsWithSub line (chars "root") then
        match (splitCh (Char.ofNat 61) line).get? 1 with
        | none => st
        | some value =>
          let val := trimChars value
          if val = [] then st else { st with current_route_root := val }
      else if startsWithSub line (chars "autoindex") then
        match (splitCh (Char.ofNat 61) line).get? 1 with
        | none => st
        | some value =>
          let val := toLowerStr (trimChars value)
          { st with
            current_route_autoindex :=
              decide (val = chars "on" ∨ val = chars "true" ∨ val = chars "yes") }
      else if startsWithSub line (chars "cgi") then
        match (splitCh (Char.ofNat 61) line).get? 1 with
        | none => st
        | some value =>
          let val := trimChars value
          if val = [] then st else { st with current_cgi := some val }
      else if startsWithSub line (chars "redirect") then
        match (splitCh (Char.ofNat 61) line).get? 1 with
        | none => st
        | some value => { st with current_redirect := some (trimChars value) }
      else st

/-- The branch dispatch of the line loop of `parse_config_string`, on the
already comment-stripped line. -/
def processLineWith (st : PState) (line : Str) : PState :=
  if line = [] then st
  else if line = chars "\x7d" ∧ st.in_vhost ∧ st.context = ParsingContext.topLevel then
    match st.current_vhost with
    | some vh =>
      { st with vhosts := st.vhosts ++ [vh], current_vhost := none, in_vhost := false }
    | none => { st with in_vhost := false }
  else
    match st.context with
    | ParsingContext.topLevel => processTopLevel st line
    | ParsingContext.insideRoute => processInsideRoute st line

/-- One iteration of the line loop of `parse_config_string`. -/
def processLine (st : PState) (rawLine : Str) : PState :=
  processLineWith st (effectiveLine rawLine)

/-- `parse_config_string` from `src/config/parser.rs` (the Rust function
returns `io::Result` but never errors, so the model returns the config). -/
def parse_config_string (content : Str) : ServerConfig :=
  let st := (rustLines content).foldl processLine initPState
  let st :=
    match st.current_vhost with
    | some vh => { st with vhosts := st.vhosts ++ [vh], current_vhost := none }
    | none => st
  let listen :=
    if st.listen_addresses = [] then [chars "127.0.0.1:8080"]
    else st.listen_addresses
  ⟨listen, st.client_body_size_limit, st.routes, st.error_path, st.vhosts⟩

/-- The per-route facts the spec claims hold for every saved route (the
methods list is nonempty; there is a root or a redirect). -/
def routeOK (r : RouteConfig) : Prop :=
  r.methods ≠ [] ∧ (r.root ≠ [] ∨ r.redirect ≠ none)

/-- Invariant on the parser state: listen addresses are distinct, and
every route saved so far (globally, in a finished vhost, or in the vhost
being built) satisfies `routeOK`. -/
def StInv (st : PState) : Prop :=
  st.listen_addresses.Nodup ∧
    (∀ r ∈ st.routes, routeOK r) ∧
    (∀ vh ∈ st.vhosts, ∀ r ∈ vh.routes, routeOK r) ∧
    ∀ vh, st.current_vhost = some vh → ∀ r ∈ vh.routes, routeOK r

/-! ## `src/network/connection.rs` and `src/network/server.rs`

The connection state machine.  Sockets and wall-clock fields (`stream`,
`connected_at`, `last_activity`, `request_started_at`) are outside the
embedding; the bytes a socket yields or accepts arrive as event data. -/

/-- `ConnState` from `src/network/connection.rs`. -/
inductive ConnState
  | Reading
  | Writing
  | Closing
deriving DecidableEq, Repr

/-- `ClientConnection` from `src/network/connection.rs` (buffer and
lifecycle fields). -/
structure ClientConnection where
  state : ConnState
  read_buffer : Bytes
  write_buffer : Bytes
  bytes_written : Nat
  keep_alive : Bool
  requests_handled : Nat
deriving DecidableEq, Repr

/-- `ClientConnection::new`. -/
def ClientConnection.new : ClientConnection :=
  ⟨ConnState.Reading, [], [], 0, true, 0⟩

/-- `ClientConnection::write_complete`. -/
def ClientConnection.write_complete (c : ClientConnection) : Bool :=
  c.write_buffer.length ≤ c.bytes_written

/-- `ClientConnection::wants_read`. -/
def ClientConnection.wants_read (c : ClientConnection) : Bool :=
  c.state = ConnState.Reading

/-- `ClientConnection::wants_write`. -/
def ClientConnection.wants_write (c : ClientConnection) : Bool :=
  c.state = ConnState.Writing && ! c.write_complete

/-- The spec's third readiness predicate: the connection is in `Closing`
(such connections are removed by the cleanup pass of `Server::run`). -/
def ClientConnection.must_close (c : ClientConnection) : Bool :=
  c.state = ConnState.Closing

/-- `ClientConnection::queue_response`. -/
def ClientConnection.queue_response (c : ClientConnection) (data : Bytes) :
    ClientConnection :=
  { c with write_buffer := data, bytes_written := 0, state := ConnState.Writing }

/-- `ClientConnection::reset_for_next_request`. -/
def ClientConnection.reset_for_next_request (c : ClientConnection) :
    ClientConnection :=
  { c with
    read_buffer := [],
    write_buffer := [],
    bytes_written := 0,
    state := ConnState.Reading,
    requests_handled := c.requests_handled + 1 }

/-- `MAX_REQUESTS_PER_CONN` from `src/network/server.rs`. -/
def MAX_REQUESTS_PER_CONN : Nat := 100

/-- Outcome of the one `try_read` call of a read event. -/
inductive ReadOutcome
  | closed
  | ioError
  | data (bs : Bytes)
deriving Repr

/-- One readiness event for a client, with the nondeterministic outcomes
of its socket calls: the bytes read (empty models `WouldBlock`), the byte
count the socket accepted on write, I/O failures, the response the
request processing produced (`process_and_queue_response` always queues
`resp.to_bytes()` for the `HttpResponse` it built) and the keep-alive
flag derived from the request's `Connection` header. -/
structure LoopEvent where
  can_read : Bool
  can_write : Bool
  has_error : Bool
  hung_up : Bool
  readOutcome : ReadOutcome
  written : Nat
  writeError : Bool
  response : HttpResponse
  newKeepAlive : Bool
  modifyFailed : Bool

/-- Intermediate state of the per-event client handling in `Server::run`
(`client`, `should_close`, `needs_interest_update`). -/
structure PhaseSt where
  conn : ClientConnection
  should_close : Bool
  needs_update : Bool

/-- The read branch of the event handling (`Server::run` lines 100-113
with `handle_read` and `process_and_queue_response`; a ready request
always re-parses successfully, so the dead `bad_request` fallback of
`process_and_queue_response` is unreachable there). -/
def readPhase (ps : PhaseSt) (ev : LoopEvent) : PhaseSt :=
  if ev.can_read && ! ps.should_close then
    match ev.readOutcome with
    | ReadOutcome.closed => { ps with should_close := true }
    | ReadOutcome.ioError => { ps with should_close := true }
    | ReadOutcome.data bs =>
      let c := { ps.conn with read_buffer := ps.conn.read_buffer ++ bs }
      if bs ≠ [] ∧ (HttpRequest.parse c.read_buffer).isSome then
        let c := { c with keep_alive := ev.newKeepAlive }
        { ps with conn := c.queue_response ev.response.to_bytes, needs_update := true }
      else { ps with conn := c }
  else ps

/-- The write branch of the event handling (`Server::run` lines 116-135
with `ClientConnection::try_write`). -/
def writePhase (ps : PhaseSt) (ev : LoopEvent) : PhaseSt :=
  if ev.can_write && ! ps.should_close then
    if ev.writeError then { ps with should_close := true }
    else
      let c := ps.conn
      if c.write_buffer.length ≤ c.bytes_written then
        if c.keep_alive && c.requests_handled < MAX_REQUESTS_PER_CONN then
          { ps with conn := c.reset_for_next_request, needs_update := true }
        else { ps with should_close := true }
      else
        let c := { c with bytes_written := c.bytes_written + ev.written }
        if c.write_buffer.length ≤ c.bytes_written then
          if c.keep_alive && c.requests_handled < MAX_REQUESTS_PER_CONN then
            { ps with conn := c.reset_for_next_request, needs_update := true }
          else { ps with conn := c, should_close := true }
        else { ps with conn := c }
  else ps

/-- The tail of the event handling: a failed interest update also closes,
and `should_close` puts the connection in `Closing`. -/
def finPhase (ps : PhaseSt) (ev : LoopEvent) : ClientConnection :=
  let sc :=
    if ps.needs_update && ! ps.should_close && ev.modifyFailed then true
    else ps.should_close
  if sc then { ps.conn with state := ConnState.Closing } else ps.conn

/-- The whole per-event client handling of `Server::run` (lines 90-150). -/
def handleClientEvent (c : ClientConnection) (ev : LoopEvent) : ClientConnection :=
  finPhase (writePhase (readPhase ⟨c, ev.has_error || ev.hung_up, false⟩ ev) ev) ev

/-- Connection states reachable by the event loop: a connection starts as
`ClientConnection::new` and is transformed by one event handling at a
time (the cleanup pass only removes connections, never mutates one). -/
inductive ConnReachable : ClientConnection → Prop
  | init : ConnReachable ClientConnection.new
  | step (c : ClientConnection) (ev : LoopEvent) :
      ConnReachable c → ConnReachable (handleClientEvent c ev)

/-! ## Concrete oracles and inputs used by witnesses -/

/-- A filesystem on which every operation fails. -/
def fsNone : Fs := ⟨fun _ => none, fun _ => none, fun _ => false, fun _ => false⟩

/-- Handlers answering 200 OK everywhere (their behavior is irrelevant to
the statements they appear in). -/
def hdNull : Handlers :=
  ⟨fun _ _ _ => HttpResponse.ok, fun _ => HttpResponse.ok,
    fun _ _ _ => HttpResponse.ok, fun _ _ _ => HttpResponse.ok⟩

/-- A minimal configuration with no routes. -/
def cfgEmpty : ServerConfig :=
  ⟨[chars "127.0.0.1:8080"], 10485760, [], chars "err", []⟩

/-- A request whose path contains a raw `..`. -/
def reqTraversal : HttpRequest :=
  ⟨chars "GET", chars "/a/../b", [], chars "HTTP/1.1", [], []⟩

/-- A DELETE request whose URI contains a parent (`..`) component. -/
def reqDelTraversal : HttpRequest :=
  ⟨chars "DELETE", chars "/upload/../x", [], chars "HTTP/1.1", [], []⟩

/-- A well-formed DELETE request for `uploads/a/b.txt`. -/
def reqDelPlain : HttpRequest :=
  ⟨chars "DELETE", chars "/upload/a/b.txt", [], chars "HTTP/1.1", [], []⟩

/-- A route at `/` with root `a` (declared first in the tie example). -/
def routeRootA : RouteConfig :=
  ⟨chars "/", [chars "GET"], chars "a", none, false, none, none⟩

/-- A route at `/` with root `b` (declared second in the tie example). -/
def routeRootB : RouteConfig :=
  ⟨chars "/", [chars "GET"], chars "b", none, false, none, none⟩

/-- A plain GET request for `/x`. -/
def reqSlashX : HttpRequest :=
  ⟨chars "GET", chars "/x", [], chars "HTTP/1.1", [], []⟩

/-! ## Well-formed chunk streams (spec side, for the chunked claims)

A well-formed chunk stream is a sequence of `<hex size>\r\n<data>\r\n`
frames closed by a zero-size line `0\r\n`; this is the reference encoding
the chunked-body claims quantify over. -/

/-- ASCII code of one lowercase hex digit. -/
def hexCharCode (d : Nat) : Nat := if d < 10 then 48 + d else 87 + d

/-- Little-endian hex digit bytes of `n` (fuel-bounded; any fuel above
`n` is exact). -/
def hexBytesRevFuel : Nat → Nat → Bytes
  | 0, _ => []
  | fuel + 1, n =>
    if n = 0 then [] else hexCharCode (n % 16) :: hexBytesRevFuel fuel (n / 16)

/-- The canonical hex size line content for `n` (msd first, `0` for 0). -/
def hexSizeBytes (n : Nat) : Bytes :=
  if n = 0 then [48] else (hexBytesRevFuel (n + 1) n).reverse

/-- One encoded chunk frame: `<hex size>\r\n<data>\r\n`. -/
def encodeChunk (c : Bytes) : Bytes :=
  hexSizeBytes c.length ++ [13, 10] ++ c ++ [13, 10]

/-- A whole well-formed chunk stream, closed by the `0\r\n` line (the
parser stops right there and requires nothing after it). -/
def encodeChunks : List Bytes → Bytes
  | [] => [48, 13, 10]
  | c :: rest => encodeChunk c ++ encodeChunks rest

/-! ## Helper lemmas -/

theorem foldl_append_acc (f : α → List β) (l : List α) (init : List β) :
    l.foldl (fun out x => out ++ f x) init = init ++ concatAll (l.map f) := by
  induction l generalizing init with
  | nil => simp [concatAll]
  | cons x xs ih =>
    simp only [List.foldl_cons, List.map_cons, concatAll, ih]
    simp [List.append_assoc]

theorem getA_insertA (l : List (Str × Str)) (k v k2 : Str) :
    getA (insertA l k v) k2 = if k = k2 then some v else getA l k2 := by
  induction l with
  | nil =>
    by_cases h : k = k2 <;> simp [insertA, getA, h]
  | cons kv rest ih =>
    obtain ⟨ka, va⟩ := kv
    by_cases hk : ka = k
    · subst hk
      by_cases h2 : ka = k2 <;> simp [insertA, getA, h2]
    · by_cases h2 : ka = k2
      · subst h2
        have hne : ¬ k = ka := fun h => hk h.symm
        simp [insertA, getA, hk, hne]
      · simp [insertA, getA, hk, h2, ih]

theorem mem_insertA (l : List (Str × Str)) (k v a b : Str) :
    (a, b) ∈ insertA l k v → (a, b) ∈ l ∨ (a = k ∧ b = v) := by
  induction l with
  | nil => simp [insertA]
  | cons kv rest ih =>
    obtain ⟨ka, va⟩ := kv
    intro h
    by_cases hk : ka = k
    · subst hk
      simp [insertA] at h
      rcases h with h | h
      · exact Or.inr h
      · exact Or.inl (List.mem_cons_of_mem _ h)
    · simp [insertA, hk] at h
      rcases h with ⟨h1, h2⟩ | h
      · subst h1
        subst h2
        exact Or.inl (List.mem_cons_self _ _)
      · rcases ih h with h2 | h2
        · exact Or.inl (List.mem_cons_of_mem _ h2)
        · exact Or.inr h2

theorem error_response_status (fs : Fs) (code : Nat) (p m : Str) :
    (error_response fs code p m).status_code = code := by
  unfold error_response
  dsimp only
  split <;>
    simp [HttpResponse.new, HttpResponse.set_header, HttpResponse.set_body,
      HttpResponse.set_body_bytes]

theorem is_path_safe_false_of (path : Str)
    (h : containsSub (url_decode path) (chars "..") = true ∨
      (url_decode path).contains (Char.ofNat 0) = true ∨
      containsSub (url_decode path) (chars "//") = true) :
    is_path_safe path = false := by
  unfold is_path_safe
  rcases h with h | h | h
  · simp [h]
  · have h3 : Char.ofNat 0 ∈ url_decode path := by simpa using h
    by_cases h1 : containsSub (url_decode path) (chars "..") <;> simp [h1, h3]
  · by_cases h1 : containsSub (url_decode path) (chars "..") <;>
      by_cases h2 : Char.ofNat 0 ∈ url_decode path <;> simp [h1, h2, h]

/-- Characterization of Rust `max_by_key` (via `maxByKeyLast`): it yields
an element splitting the list so that everything before has a key at most
its own, and everything after a strictly smaller key (so among equal
maxima the last one wins). -/
theorem maxByKeyLast_spec (key : α → Nat) (l : List α) (r : α)
    (h : maxByKeyLast key l = some r) :
    ∃ pre post, l = pre ++ r :: post ∧ (∀ x ∈ pre, key x ≤ key r) ∧
      ∀ x ∈ post, key x < key r := by
  have aux : ∀ (xs : List α) (m : α), ∃ res,
      xs.foldl
        (fun acc x =>
          match acc with
          | none => some x
          | some m2 => if key m2 ≤ key x then some x else some m2)
        (some m) = some res ∧
      ((res = m ∧ ∀ x ∈ xs, key x < key m) ∨
        ∃ pre post, xs = pre ++ res :: post ∧ key m ≤ key res ∧
          (∀ x ∈ pre, key x ≤ key res) ∧ ∀ x ∈ post, key x < key res) := by
    intro xs
    induction xs with
    | nil => exact fun m => ⟨m, rfl, Or.inl ⟨rfl, by simp⟩⟩
    | cons x xs ih =>
      intro m
      by_cases hle : key m ≤ key x
      · obtain ⟨res, hres, hcase⟩ := ih x
        refine ⟨res, by simpa [hle] using hres, Or.inr ?_⟩
        rcases hcase with ⟨rfl, hall⟩ | ⟨pre, post, rfl, hxr, hpre, hpost⟩
        · exact ⟨[], xs, rfl, hle, by simp, hall⟩
        · refine ⟨x :: pre, post, rfl, le_trans hle hxr, ?_, hpost⟩
          intro y hy
          rcases List.mem_cons.mp hy with rfl | hy
          · exact hxr
          · exact hpre y hy
      · obtain ⟨res, hres, hcase⟩ := ih m
        refine ⟨res, by simpa [hle] using hres, ?_⟩
        have hxlt : key x < key m := Nat.lt_of_not_le hle
        rcases hcase with ⟨rfl, hall⟩ | ⟨pre, post, rfl, hmr, hpre, hpost⟩
        · refine Or.inl ⟨rfl, ?_⟩
          intro y hy
          rcases List.mem_cons.mp hy with rfl | hy
          · exact hxlt
          · exact hall y hy
        · refine Or.inr ⟨x :: pre, post, rfl, hmr, ?_, hpost⟩
          intro y hy
          rcases List.mem_cons.mp hy with rfl | hy
          · exact le_trans (Nat.le_of_lt hxlt) hmr
          · exact hpre y hy
  cases l with
  | nil => simp [maxByKeyLast] at h
  | cons x xs =>
    obtain ⟨res, hres, hcase⟩ := aux xs x
    have hres2 : maxByKeyLast key (x :: xs) = some res := by
      simpa [maxByKeyLast] using hres
    rw [hres2] at h
    injection h with h
    subst h
    rcases hcase with ⟨rfl, hall⟩ | ⟨pre, post, rfl, hmr, hpre, hpost⟩
    · exact ⟨[], xs, rfl, by simp, hall⟩
    · refine ⟨x :: pre, post, rfl, ?_, hpost⟩
      intro y hy
      rcases List.mem_cons.mp hy with rfl | hy
      · exact hmr
      · exact hpre y hy

/-! ## C4: wire format of `HttpResponse::to_bytes` -/

/-- The response whose headers were inserted as `A: x` then `B: y`
admits two legal `HashMap` iteration orders producing different byte
outputs, so the insertion-order emission asserted by the claim is not a
property of the program (the Rust map's iteration order is arbitrary). -/
theorem to_bytes_order_counterexample :
    List.Perm [(chars "B", chars "y"), (chars "A", chars "x")] respAB.headers ∧
    HttpResponse.to_bytes_iter respAB
        [(chars "B", chars "y"), (chars "A", chars "x")] ≠
      HttpResponse.to_bytes_iter respAB
        [(chars "A", chars "x"), (chars "B", chars "y")] := by
  constructor
  · exact List.Perm.swap (chars "A", chars "x") (chars "B", chars "y") []
  · decide

/-- C4 (corrected): for every `HttpResponse` and every iteration order of
the stored header map (any permutation of the stored entries),
`to_bytes` emits exactly the status line `HTTP/1.1 <code> <text>\r\n`,
then every stored header exactly once as `Key: Value\r\n` — in the
iteration's unspecified order, not necessarily the insertion order —
then a synthetic `Content-Length: <body length>\r\n` line if and only if
no `Content-Length` header is stored, then `\r\n`, then the body bytes
unchanged. -/
theorem to_bytes_layout_amended (r : HttpResponse) (iter : List (Str × Str))
    (hperm : List.Perm iter r.headers) :
    r.to_bytes_iter iter =
      utf8Encode (chars "HTTP/1.1 " ++ natRepr r.status_code ++ chars " " ++
          r.status_text ++ chars "\r\n") ++
        concatAll (iter.map renderHeader) ++
        (if (getA r.headers (chars "Content-Length")).isSome then []
          else
            utf8Encode
              (chars "Content-Length: " ++ natRepr r.body.length ++ chars "\r\n")) ++
        [13, 10] ++ r.body ∧
    List.Perm (iter.map renderHeader) (r.headers.map renderHeader) := by
  constructor
  · unfold HttpResponse.to_bytes_iter
    simp only [foldl_append_acc renderHeader]
    by_cases h : (getA r.headers (chars "Content-Length")).isSome
    · simp [h, List.append_assoc]
    · simp [h, List.append_assoc]
  · exact hperm.map renderHeader

/-- Witness for C4 at the stored-order iteration of `respAB`. -/
theorem to_bytes_layout_amended_witness :
    List.Perm respAB.headers respAB.headers ∧
    (HttpResponse.to_bytes_iter respAB respAB.headers =
      utf8Encode (chars "HTTP/1.1 " ++ natRepr respAB.status_code ++ chars " " ++
          respAB.status_text ++ chars "\r\n") ++
        concatAll (respAB.headers.map renderHeader) ++
        (if (getA respAB.headers (chars "Content-Length")).isSome then []
          else
            utf8Encode
              (chars "Content-Length: " ++
                natRepr respAB.body.length ++ chars "\r\n")) ++
        [13, 10] ++ respAB.body ∧
      List.Perm (respAB.headers.map renderHeader)
        (respAB.headers.map renderHeader)) :=
  ⟨List.Perm.refl _,
    to_bytes_layout_amended respAB respAB.headers (List.Perm.refl _)⟩


/-! ## C2: early 403 on unsafe paths -/

/-- C2: for every `HTTP/1.1` request whose URL-decoded path contains
`..`, a NUL byte or `//`, `route_request` answers with the 403 error
response, and the answer is independent of the configured routes and
virtual hosts (no route dispatch happens; the only filesystem access is
the error-page lookup, never the requested target). -/
theorem route_request_unsafe_403 (fs : Fs) (hd : Handlers) (request : HttpRequest)
    (config : ServerConfig) (hv : request.version = chars "HTTP/1.1")
    (hbad : containsSub (url_decode request.path) (chars "..") = true ∨
      (url_decode request.path).contains (Char.ofNat 0) = true ∨
      containsSub (url_decode request.path) (chars "//") = true) :
    route_request fs hd request config =
        error_response fs 403 config.error_path (chars "Forbidden") ∧
      (route_request fs hd request config).status_code = 403 ∧
      ∀ routes2 vhosts2,
        route_request fs hd request
            { config with routes := routes2, vhosts := vhosts2 } =
          route_request fs hd request config := by
  have hsafe := is_path_safe_false_of request.path hbad
  have hmain : ∀ cfg2 : ServerConfig,
      route_request fs hd request cfg2 =
        error_response fs 403 cfg2.error_path (chars "Forbidden") := by
    intro cfg2
    unfold route_request
    simp [hv, hsafe]
  refine ⟨hmain config, ?_, ?_⟩
  · rw [hmain config]
    exact error_response_status fs 403 config.error_path (chars "Forbidden")
  · intro routes2 vhosts2
    rw [hmain config, hmain { config with routes := routes2, vhosts := vhosts2 }]

theorem route_request_unsafe_403_witness :
    (route_request fsNone hdNull reqTraversal cfgEmpty).status_code = 403 :=
  (route_request_unsafe_403 fsNone hdNull reqTraversal cfgEmpty (by decide)
    (Or.inl (by decide))).2.1

/-! ## C3: longest-prefix route matching -/

/-- C3 counterexample: two routes with the same path `/` both prefix
`/x`; the claim selects the one declared earliest (`routeRootA`), but
`find_route` (Rust `max_by_key`, last maximum wins) returns the later
`routeRootB`. -/
theorem find_route_tie_counterexample :
    find_route reqSlashX [routeRootA, routeRootB] = some routeRootB ∧
      routeRootB ≠ routeRootA := by decide

/-- C3 amended: `find_route` selects a route whose path has maximal
length among the routes prefixing the request path, and among routes of
that maximal length the one declared LAST is selected; if no route
prefixes the path and the request passes the version, path-safety and
body-size gates (with no virtual hosts configured), `route_request`
answers 404. -/
theorem find_route_longest_last_and_404 :
    (∀ (request : HttpRequest) (routes : List RouteConfig) (r : RouteConfig),
      find_route request routes = some r →
        r ∈ routes ∧ startsWithSub request.path r.path = true ∧
          (∀ r2 ∈ routes, startsWithSub request.path r2.path = true →
            r2.path.length ≤ r.path.length) ∧
          ∃ pre post,
            routes.filter (fun rt => startsWithSub request.path rt.path) =
                pre ++ r :: post ∧
              ∀ r2 ∈ post, r2.path.length < r.path.length) ∧
    ∀ (fs : Fs) (hd : Handlers) (request : HttpRequest) (config : ServerConfig),
      request.version = chars "HTTP/1.1" → is_path_safe request.path = true →
      request.body.length ≤ config.client_body_size_limit →
      config.vhosts = [] →
      (∀ rt ∈ config.routes, startsWithSub request.path rt.path = false) →
      route_request fs hd request config =
          error_response fs 404 config.error_path (chars "Not Found") ∧
        (route_request fs hd request config).status_code = 404 := by
  constructor
  · intro request routes r hfr
    have hfr2 : maxByKeyLast (fun rt : RouteConfig => rt.path.length)
        (routes.filter (fun rt => startsWithSub request.path rt.path)) = some r := hfr
    obtain ⟨pre, post, heq, hpre, hpost⟩ :=
      maxByKeyLast_spec (fun rt : RouteConfig => rt.path.length) _ r hfr2
    have hrmem : r ∈ routes.filter (fun rt => startsWithSub request.path rt.path) := by
      rw [heq]
      exact List.mem_append_right _ (List.mem_cons_self _ _)
    have hrmem2 := List.mem_filter.mp hrmem
    refine ⟨hrmem2.1, hrmem2.2, ?_, pre, post, heq, hpost⟩
    intro r2 hr2 hpref
    have hr2f : r2 ∈ routes.filter (fun rt => startsWithSub request.path rt.path) :=
      List.mem_filter.mpr ⟨hr2, hpref⟩
    rw [heq] at hr2f
    rcases List.mem_append.mp hr2f with h | h
    · exact hpre r2 h
    · rcases List.mem_cons.mp h with rfl | h
      · exact le_refl _
      · exact Nat.le_of_lt (hpost r2 h)
  · intro fs hd request config hv hsafe hsize hvh hnone
    have hfilter :
        config.routes.filter (fun rt => startsWithSub request.path rt.path) = [] := by
      rw [List.filter_eq_nil_iff]
      intro rt hrt
      simp [hnone rt hrt]
    have hfr : find_route request config.routes = none := by
      unfold find_route
      rw [hfilter]
      rfl
    have hnlt : ¬ (config.client_body_size_limit < request.body.length) :=
      Nat.not_lt.mpr hsize
    have hmain : route_request fs hd request config =
        error_response fs 404 config.error_path (chars "Not Found") := by
      unfold route_request
      simp [hv, hsafe, hvh, hnlt, hfr]
    exact ⟨hmain, by
      rw [hmain]
      exact error_response_status fs 404 config.error_path (chars "Not Found")⟩

theorem find_route_longest_last_and_404_witness :
    routeRootB ∈ [routeRootA, routeRootB] ∧
      (route_request fsNone hdNull reqSlashX cfgEmpty).status_code = 404 :=
  ⟨(find_route_longest_last_and_404.1 reqSlashX [routeRootA, routeRootB] routeRootB
      (by decide)).1,
    (find_route_longest_last_and_404.2 fsNone hdNull reqSlashX cfgEmpty (by decide)
      (by decide) (by decide) (by decide) (by decide)).2⟩

/-! ## C9: the delete handler -/

theorem splitChAux_no_sep (sep : Char) (s : Str) (h : sep ∉ s) :
    ∀ cur, splitChAux sep s cur = [cur.reverse ++ s] := by
  induction s with
  | nil => intro cur; simp [splitChAux]
  | cons c rest ih =>
    intro cur
    have hc : ¬ c = sep := fun hcs => h (hcs ▸ List.mem_cons_self _ _)
    have hrest : sep ∉ rest := fun hm => h (List.mem_cons_of_mem _ hm)
    simp [splitChAux, hc, ih hrest]

theorem splitChAux_append (sep : Char) (a b : Str) :
    ∀ cur, splitChAux sep (a ++ sep :: b) cur =
      splitChAux sep a cur ++ splitChAux sep b [] := by
  induction a with
  | nil => intro cur; simp [splitChAux]
  | cons c a2 ih =>
    intro cur
    by_cases hc : c = sep <;> simp [splitChAux, hc, ih]

theorem pathComponents_base_seg (base t2 : Str) (hb : base ≠ [])
    (hb47 : Char.ofNat 47 ∉ base) (hdot : base ≠ chars ".")
    (hdd : base ≠ chars "..") :
    pathComponents (base ++ Char.ofNat 47 :: t2) =
      PathComp.normal base ::
        ((((splitCh (Char.ofNat 47) t2).filter (· ≠ [])).map segToComp).filter
          (· ≠ PathComp.curDir)) := by
  have hslash : chars "/" = [Char.ofNat 47] := by decide
  have h1 : startsWithSub (base ++ Char.ofNat 47 :: t2) (chars "/") = false := by
    rw [hslash]
    cases base with
    | nil => exact absurd rfl hb
    | cons c bs =>
      simp only [startsWithSub, List.cons_append, decide_eq_false_iff_not]
      intro hpre
      obtain ⟨t, ht⟩ := hpre
      have hc : Char.ofNat 47 = c := by
        have := ht
        simp only [List.cons_append, List.nil_append] at this
        exact (List.cons.injEq _ _ _ _ ▸ this).1
      exact hb47 (hc ▸ List.mem_cons_self _ _)
  have hsplit : splitCh (Char.ofNat 47) (base ++ Char.ofNat 47 :: t2) =
      base :: splitCh (Char.ofNat 47) t2 := by
    unfold splitCh
    rw [splitChAux_append, splitChAux_no_sep _ _ hb47]
    simp
  have hsegbase : segToComp base = PathComp.normal base := by
    unfold segToComp
    rw [if_neg hdot, if_neg hdd]
  have hne : (PathComp.normal base ≠ PathComp.curDir) := by
    intro h
    exact PathComp.noConfusion h
  unfold pathComponents
  rw [h1, hsplit]
  simp [hb, hsegbase, hne]

theorem pathStartsWith_uploads (p : Str)
    (h : ∃ rest, pathComponents p = PathComp.normal (chars "uploads") :: rest) :
    pathStartsWith p (chars "uploads") = true := by
  obtain ⟨rest, hr⟩ := h
  unfold pathStartsWith
  rw [hr]
  have hcomp : pathComponents (chars "uploads") = [PathComp.normal (chars "uploads")] := by
    decide
  rw [hcomp]
  simp only [decide_eq_true_eq]
  exact ⟨rest, rfl⟩

theorem buildWalk_uploads (comps : List PathComp) :
    ∀ result, (∃ tail, result = chars "uploads" ++ tail ∧
        (tail = [] ∨ ∃ t2, tail = Char.ofNat 47 :: t2)) →
      ∃ tail, buildWalk comps result = chars "uploads" ++ tail ∧
        (tail = [] ∨ ∃ t2, tail = Char.ofNat 47 :: t2) := by
  induction comps with
  | nil =>
    intro result h
    exact h
  | cons c rest ih =>
    intro result h
    cases c with
    | normal seg =>
      obtain ⟨tail, rfl, htail⟩ := h
      have hu : chars "uploads" ≠ [] := by decide
      have hne : chars "uploads" ++ tail ≠ [] :=
        fun hx => hu (List.append_eq_nil.mp hx).1
      have hslash : chars "/" = [Char.ofNat 47] := by decide
      have hpush : pushPath (chars "uploads" ++ tail) seg =
          chars "uploads" ++ (tail ++ Char.ofNat 47 :: seg) := by
        unfold pushPath
        rw [if_neg hne, hslash]
        simp
      simp only [buildWalk, hpush]
      apply ih
      refine ⟨tail ++ Char.ofNat 47 :: seg, rfl, ?_⟩
      rcases htail with rfl | ⟨t2, rfl⟩
      · exact Or.inr ⟨seg, by simp⟩
      · exact Or.inr ⟨t2 ++ Char.ofNat 47 :: seg, by simp⟩
    | curDir =>
      simp only [buildWalk]
      exact ih _ h
    | parentDir =>
      simpa only [buildWalk] using h
    | rootDir =>
      simpa only [buildWalk] using h

theorem build_safe_path_shape (rel : Str) :
    ∃ tail, build_safe_path (chars "uploads") rel = chars "uploads" ++ tail ∧
      (tail = [] ∨ ∃ t2, tail = Char.ofNat 47 :: t2) :=
  buildWalk_uploads _ _ ⟨[], by simp, Or.inl rfl⟩

theorem build_safe_path_starts (rel : Str) :
    pathStartsWith (build_safe_path (chars "uploads") rel) (chars "uploads") = true := by
  obtain ⟨tail, heq, hsh⟩ := build_safe_path_shape rel
  apply pathStartsWith_uploads
  rcases hsh with rfl | ⟨t2, rfl⟩
  · rw [heq, List.append_nil]
    exact ⟨[], by decide⟩
  · rw [heq,
      pathComponents_base_seg (chars "uploads") t2 (by decide) (by decide)
        (by decide) (by decide)]
    exact ⟨_, rfl⟩

/-- C9 counterexample: the URI `/upload/../x` has a non-normal (`..`)
component in its remainder, so the claim demands a 403 refusal; instead
`build_safe_path` silently truncates at the `..` (yielding `uploads`
itself) and the handler goes on to attempt the removal, answering 404
when it fails and 200 when it succeeds — never 403. -/
theorem delete_file_dotdot_counterexample :
    build_safe_path (chars "uploads") (extract_file_path reqDelTraversal.path) =
        chars "uploads" ∧
      (delete_file (fun _ => false) reqDelTraversal).status_code = 404 ∧
      (delete_file (fun _ => true) reqDelTraversal).status_code = 200 := by
  decide

/-- C9 amended: the target is derived by stripping a leading `/upload`
and walking components under `uploads`, but a non-normal component stops
the walk, silently dropping it and everything after it.  The built path
always keeps `uploads` as its first component; the handler answers 403
exactly when the built path still contains `..` (only possible from a
normal segment such as `a..b`), otherwise 200 when removal succeeds and
404 when it fails. -/
theorem delete_file_amended (removeOk : Str → Bool) (request : HttpRequest) :
    pathStartsWith (build_safe_path (chars "uploads") (extract_file_path request.path))
        (chars "uploads") = true ∧
      (delete_file removeOk request = HttpResponse.forbidden ↔
        containsSub (build_safe_path (chars "uploads") (extract_file_path request.path))
          (chars "..") = true) ∧
      (containsSub (build_safe_path (chars "uploads") (extract_file_path request.path))
          (chars "..") = false →
        delete_file removeOk request =
          if removeOk (build_safe_path (chars "uploads") (extract_file_path request.path))
          then HttpResponse.ok_with_message (chars "File deleted successfully")
          else HttpResponse.not_found) := by
  have hstart := build_safe_path_starts (extract_file_path request.path)
  refine ⟨hstart, ?_, ?_⟩
  · constructor
    · intro hres
      by_contra hcontains
      have hcontains2 :
          containsSub
            (build_safe_path (chars "uploads") (extract_file_path request.path))
            (chars "..") = false := by
        cases h2 :
          containsSub (build_safe_path (chars "uploads") (extract_file_path request.path))
            (chars "..") with
        | false => rfl
        | true => exact absurd h2 hcontains
      unfold delete_file at hres
      dsimp only at hres
      rw [show is_safe_path
          (build_safe_path (chars "uploads") (extract_file_path request.path)) = true by
        unfold is_safe_path
        rw [hstart, hcontains2]
        rfl] at hres
      by_cases hrm :
          removeOk (build_safe_path (chars "uploads") (extract_file_path request.path)) =
            true
      · simp [hrm] at hres
        exact absurd hres (by decide)
      · simp only [Bool.not_eq_true] at hrm
        simp [hrm] at hres
        exact absurd hres (by decide)
    · intro hcontains
      unfold delete_file
      dsimp only
      rw [show is_safe_path
          (build_safe_path (chars "uploads") (extract_file_path request.path)) = false by
        unfold is_safe_path
        rw [hstart, hcontains]
        rfl]
      rfl
  · intro hcontains
    unfold delete_file
    dsimp only
    rw [show is_safe_path
        (build_safe_path (chars "uploads") (extract_file_path request.path)) = true by
      unfold is_safe_path
      rw [hstart, hcontains]
      rfl]
    simp only [Bool.not_true, Bool.false_eq_true, if_false]

theorem delete_file_amended_witness :
    pathStartsWith (build_safe_path (chars "uploads") (extract_file_path reqDelPlain.path))
        (chars "uploads") = true ∧
      delete_file (fun _ => true) reqDelPlain =
        HttpResponse.ok_with_message (chars "File deleted successfully") :=
  ⟨(delete_file_amended (fun _ => true) reqDelPlain).1,
    by
      have h := (delete_file_amended (fun _ => true) reqDelPlain).2.2 (by decide)
      simpa using h⟩

/-! ## C5: the connection readiness invariant -/

theorem to_bytes_ne_nil (r : HttpResponse) : r.to_bytes ≠ [] := by
  unfold HttpResponse.to_bytes
  dsimp only
  intro h
  rw [List.append_eq_nil] at h
  rw [List.append_eq_nil] at h
  exact absurd h.1.2 (by decide)

theorem readPhase_inv (ps : PhaseSt) (ev : LoopEvent)
    (h : ps.should_close = true ∨
      (ps.conn.state = ConnState.Writing →
        ps.conn.bytes_written < ps.conn.write_buffer.length)) :
    (readPhase ps ev).should_close = true ∨
      ((readPhase ps ev).conn.state = ConnState.Writing →
        (readPhase ps ev).conn.bytes_written <
          (readPhase ps ev).conn.write_buffer.length) := by
  unfold readPhase
  by_cases hc : (ev.can_read && ! ps.should_close) = true
  · rw [if_pos hc]
    cases ev.readOutcome with
    | closed => exact Or.inl rfl
    | ioError => exact Or.inl rfl
    | data bs =>
      dsimp only
      by_cases hready :
          bs ≠ [] ∧ (HttpRequest.parse (ps.conn.read_buffer ++ bs)).isSome = true
      · rw [if_pos hready]
        refine Or.inr fun _ => ?_
        have hlen : ev.response.to_bytes.length ≠ 0 := fun hz =>
          to_bytes_ne_nil ev.response (List.length_eq_zero.mp hz)
        simp [ClientConnection.queue_response]
        omega
      · rw [if_neg hready]
        rcases h with h | h
        · exact Or.inl h
        · exact Or.inr fun hw => h hw
  · rw [if_neg hc]
    exact h

theorem writePhase_inv (ps : PhaseSt) (ev : LoopEvent)
    (h : ps.should_close = true ∨
      (ps.conn.state = ConnState.Writing →
        ps.conn.bytes_written < ps.conn.write_buffer.length)) :
    (writePhase ps ev).should_close = true ∨
      ((writePhase ps ev).conn.state = ConnState.Writing →
        (writePhase ps ev).conn.bytes_written <
          (writePhase ps ev).conn.write_buffer.length) := by
  unfold writePhase
  by_cases hcw : (ev.can_write && ! ps.should_close) = true
  · rw [if_pos hcw]
    by_cases hwe : ev.writeError = true
    · rw [if_pos hwe]
      exact Or.inl rfl
    · rw [if_neg hwe]
      dsimp only
      by_cases h1 : ps.conn.write_buffer.length ≤ ps.conn.bytes_written
      · rw [if_pos h1]
        by_cases h2 : (ps.conn.keep_alive &&
            decide (ps.conn.requests_handled < MAX_REQUESTS_PER_CONN)) = true
        · rw [if_pos h2]
          refine Or.inr fun hw => ?_
          simp [ClientConnection.reset_for_next_request] at hw
        · rw [if_neg h2]
          exact Or.inl rfl
      · rw [if_neg h1]
        by_cases h3 : ps.conn.write_buffer.length ≤ ps.conn.bytes_written + ev.written
        · rw [if_pos h3]
          by_cases h2 : (ps.conn.keep_alive &&
              decide (ps.conn.requests_handled < MAX_REQUESTS_PER_CONN)) = true
          · rw [if_pos h2]
            refine Or.inr fun hw => ?_
            simp [ClientConnection.reset_for_next_request] at hw
          · rw [if_neg h2]
            exact Or.inl rfl
        · rw [if_neg h3]
          refine Or.inr fun _ => ?_
          dsimp only
          omega
  · rw [if_neg hcw]
    exact h

theorem finPhase_inv (ps : PhaseSt) (ev : LoopEvent)
    (h : ps.should_close = true ∨
      (ps.conn.state = ConnState.Writing →
        ps.conn.bytes_written < ps.conn.write_buffer.length)) :
    (finPhase ps ev).state = ConnState.Writing →
      (finPhase ps ev).bytes_written < (finPhase ps ev).write_buffer.length := by
  unfold finPhase
  dsimp only
  by_cases hA : (ps.needs_update && ! ps.should_close && ev.modifyFailed) = true
  · rw [if_pos hA, if_pos rfl]
    intro hw
    exact absurd hw (by simp)
  · rw [if_neg hA]
    by_cases hb : ps.should_close = true
    · rw [if_pos hb]
      intro hw
      exact absurd hw (by simp)
    · rw [if_neg hb]
      rcases h with h | h
      · exact absurd h hb
      · exact h

theorem handleClientEvent_inv (c : ClientConnection) (ev : LoopEvent)
    (h : c.state = ConnState.Writing → c.bytes_written < c.write_buffer.length) :
    (handleClientEvent c ev).state = ConnState.Writing →
      (handleClientEvent c ev).bytes_written <
        (handleClientEvent c ev).write_buffer.length := by
  unfold handleClientEvent
  exact finPhase_inv _ ev (writePhase_inv _ ev (readPhase_inv _ ev (Or.inr h)))

theorem connReachable_inv (c : ClientConnection) (h : ConnReachable c) :
    c.state = ConnState.Writing → c.bytes_written < c.write_buffer.length := by
  induction h with
  | init => intro hw; simp [ClientConnection.new] at hw
  | step c2 ev _ ih => exact handleClientEvent_inv c2 ev ih

/-- C5: for every connection reachable by the event loop, exactly one of
the predicates `wants_read` (state `Reading`), `wants_write` (state
`Writing` with unwritten bytes remaining) and `must_close` (state
`Closing`) holds. -/
theorem conn_exactly_one (c : ClientConnection) (h : ConnReachable c) :
    c.wants_read.toNat + c.wants_write.toNat + c.must_close.toNat = 1 := by
  have hinv := connReachable_inv c h
  unfold ClientConnection.wants_read ClientConnection.wants_write
    ClientConnection.must_close ClientConnection.write_complete
  cases hs : c.state with
  | Reading => simp [hs]
  | Writing =>
    have hlt := hinv hs
    have : ¬ (c.write_buffer.length ≤ c.bytes_written) := Nat.not_le.mpr hlt
    simp [hs, this]
  | Closing => simp [hs]

theorem conn_exactly_one_witness :
    ClientConnection.new.wants_read.toNat + ClientConnection.new.wants_write.toNat +
        ClientConnection.new.must_close.toNat = 1 :=
  conn_exactly_one ClientConnection.new ConnReachable.init

/-! ## C7 and C8: invariants of the configuration parser -/

theorem addListenAddrs_inv (value : Str) (st : PState) (h : StInv st) :
    StInv (addListenAddrs st value) := by
  unfold addListenAddrs
  generalize splitCh (Char.ofNat 44) value = addrs
  induction addrs generalizing st with
  | nil => exact h
  | cons a rest ih =>
    rw [List.foldl_cons]
    apply ih
    dsimp only
    by_cases h1 : trimChars a = []
    · rw [if_pos h1]
      exact h
    · rw [if_neg h1]
      by_cases h2 : (trimChars a).contains (Char.ofNat 58) = true
      · rw [if_pos h2]
        by_cases h3 : st.listen_addresses.contains (trimChars a) = true
        · rw [if_pos h3]
          exact h
        · rw [if_neg h3]
          refine ⟨?_, h.2.1, h.2.2.1, h.2.2.2⟩
          have hnotmem : trimChars a ∉ st.listen_addresses := by
            intro hmem
            exact h3 (by simpa using hmem)
          simpa using List.Nodup.concat hnotmem h.1
      · rw [if_neg h2]
        exact h

theorem closeRoute_inv (st : PState) (h : StInv st) : StInv (closeRoute st) := by
  unfold closeRoute
  dsimp only
  by_cases h1 : st.current_route_root = [] ∧ st.current_redirect = none
  · rw [if_pos h1]
    exact h
  · rw [if_neg h1]
    by_cases h2 : st.current_route_methods = []
    · rw [if_pos h2]
      exact h
    · rw [if_neg h2]
      have hok : routeOK
          ⟨st.current_route_path, st.current_route_methods, st.current_route_root,
            some (if st.current_default_file = [] then chars "index.html"
              else st.current_default_file),
            st.current_route_autoindex, st.current_cgi, st.current_redirect⟩ := by
        refine ⟨h2, ?_⟩
        rcases not_and_or.mp h1 with hr | hr
        · exact Or.inl hr
        · exact Or.inr hr
      cases hcv : st.current_vhost with
      | some vh =>
        dsimp only
        refine ⟨h.1, h.2.1, h.2.2.1, ?_⟩
        intro vh2 heq r hr
        injection heq with heq2
        subst heq2
        rcases List.mem_append.mp hr with hr | hr
        · exact h.2.2.2 vh hcv r hr
        · rcases List.mem_singleton.mp hr with rfl
          exact hok
      | none =>
        dsimp only
        refine ⟨h.1, ?_, h.2.2.1, ?_⟩
        · intro r hr
          rcases List.mem_append.mp hr with hr | hr
          · exact h.2.1 r hr
          · rcases List.mem_singleton.mp hr with rfl
            exact hok
        · intro vh2 heq
          exact absurd heq (by simp)

theorem processTopLevel_inv (st : PState) (line : Str) (h : StInv st) :
    StInv (processTopLevel st line) := by
  unfold processTopLevel
  split
  · -- vhost opening line
    cases hcv : st.current_vhost with
    | some vh =>
      dsimp only
      have hpushed : StInv
          { st with vhosts := st.vhosts ++ [vh], current_vhost := none } := by
        refine ⟨h.1, h.2.1, ?_, ?_⟩
        · intro vh2 hvh2 r hr
          rcases List.mem_append.mp hvh2 with hv | hv
          · exact h.2.2.1 vh2 hv r hr
          · rcases List.mem_singleton.mp hv with rfl
            exact h.2.2.2 vh2 hcv r hr
        · intro vh2 heq
          exact absurd heq (by simp)
      split
      · exact hpushed
      · refine ⟨hpushed.1, hpushed.2.1, hpushed.2.2.1, ?_⟩
        intro vh2 heq
        injection heq with heq2
        subst heq2
        intro r hr
        exact absurd hr (by simp)
    | none =>
      dsimp only
      split
      · exact h
      · refine ⟨h.1, h.2.1, h.2.2.1, ?_⟩
        intro vh2 heq
        injection heq with heq2
        subst heq2
        intro r hr
        exact absurd hr (by simp)
  split
  · -- route opening line
    try dsimp only
    split
    · exact h
    · exact h
  split
  · -- listen directive
    split
    · exact h
    · try dsimp only
      split
      · exact h
      · exact addListenAddrs_inv _ _ h
  split
  · -- client_body_size_limit directive
    split
    · exact h
    · try dsimp only
      split
      · exact h
      · exact h
  split
  · -- error_path directive
    split
    · exact h
    · try dsimp only
      split
      · exact h
      · cases hcv : st.current_vhost with
        | some vh =>
          dsimp only
          refine ⟨h.1, h.2.1, h.2.2.1, ?_⟩
          intro vh2 heq
          injection heq with heq2
          subst heq2
          intro r hr
          exact h.2.2.2 vh hcv r hr
        | none =>
          dsimp only
          refine ⟨h.1, h.2.1, h.2.2.1, ?_⟩
          intro vh2 heq
          exact absurd heq (by simp)
  · exact h

theorem processInsideRoute_inv (st : PState) (line : Str) (h : StInv st) :
    StInv (processInsideRoute st line) := by
  unfold processInsideRoute
  split
  · exact closeRoute_inv st h
  split
  · -- methods directive
    split
    · exact h
    · try dsimp only
      split
      · exact h
      · exact h
  split
  · -- default_file directive
    split
    · exact h
    · try dsimp only
      split
      · exact h
      · exact h
  split
  · -- root directive
    split
    · exact h
    · try dsimp only
      split
      · exact h
      · exact h
  split
  · -- autoindex directive
    split
    · exact h
    · exact h
  split
  · -- cgi directive
    split
    · exact h
    · try dsimp only
      split
      · exact h
      · exact h
  split
  · -- redirect directive
    split
    · exact h
    · exact h
  · exact h

theorem processLineWith_inv (st : PState) (line : Str) (h : StInv st) :
    StInv (processLineWith st line) := by
  unfold processLineWith
  split
  · exact h
  split
  · -- closing a vhost block
    cases hcv : st.current_vhost with
    | some vh =>
      dsimp only
      refine ⟨h.1, h.2.1, ?_, ?_⟩
      · intro vh2 hvh2 r hr
        rcases List.mem_append.mp hvh2 with hv | hv
        · exact h.2.2.1 vh2 hv r hr
        · rcases List.mem_singleton.mp hv with rfl
          exact h.2.2.2 vh2 hcv r hr
      · intro vh2 heq
        exact absurd heq (by simp)
    | none =>
      dsimp only
      refine ⟨h.1, h.2.1, h.2.2.1, ?_⟩
      intro vh2 heq
      exact absurd heq (by simp)
  · split
    · exact processTopLevel_inv st line h
    · exact processInsideRoute_inv st line h

theorem processLine_inv (st : PState) (rawLine : Str) (h : StInv st) :
    StInv (processLine st rawLine) :=
  processLineWith_inv st (effectiveLine rawLine) h

theorem foldl_processLine_inv (ls : List Str) :
    ∀ st, StInv st → StInv (ls.foldl processLine st) := by
  induction ls with
  | nil => exact fun st h => h
  | cons a rest ih => exact fun st h => ih _ (processLine_inv st a h)

theorem parse_config_post (content : Str) :
    (parse_config_string content).listen_addresses ≠ [] ∧
      (parse_config_string content).listen_addresses.Nodup ∧
      (∀ r ∈ (parse_config_string content).routes, routeOK r) ∧
      ∀ vh ∈ (parse_config_string content).vhosts, ∀ r ∈ vh.routes, routeOK r := by
  have h0 : StInv initPState := by
    refine ⟨List.nodup_nil, ?_, ?_, ?_⟩ <;> simp [initPState]
  have hfold := foldl_processLine_inv (rustLines content) initPState h0
  unfold parse_config_string
  dsimp only
  set stF := (rustLines content).foldl processLine initPState with hstF
  cases hcv : stF.current_vhost with
  | some vh =>
    dsimp only
    refine ⟨?_, ?_, ?_, ?_⟩
    · split
      · exact (by decide : [chars "127.0.0.1:8080"] ≠ [])
      · rename_i hne
        exact hne
    · split
      · exact (by decide : ([chars "127.0.0.1:8080"]).Nodup)
      · exact hfold.1
    · intro r hr
      exact hfold.2.1 r hr
    · intro vh2 hvh2 r hr
      rcases List.mem_append.mp hvh2 with hv | hv
      · exact hfold.2.2.1 vh2 hv r hr
      · rcases List.mem_singleton.mp hv with rfl
        exact hfold.2.2.2 vh2 hcv r hr
  | none =>
    dsimp only
    refine ⟨?_, ?_, ?_, ?_⟩
    · split
      · exact (by decide : [chars "127.0.0.1:8080"] ≠ [])
      · rename_i hne
        exact hne
    · split
      · exact (by decide : ([chars "127.0.0.1:8080"]).Nodup)
      · exact hfold.1
    · intro r hr
      exact hfold.2.1 r hr
    · intro vh2 hvh2 r hr
      exact hfold.2.2.1 vh2 hvh2 r hr

/-- C7 counterexample: a route block whose `methods` directive is absent
is not saved at all (no route is loaded), rather than being loaded with
the method set `{GET}` as the claim states. -/
theorem methods_missing_route_skipped :
    (parse_config_string (chars "route /a \x7b\nroot = www\n\x7d\n")).routes = [] := by
  decide

/-- C7 amended: a route block with an absent or empty `methods` directive
is skipped entirely; consequently every route the parser saves (global or
inside a vhost) has a nonempty methods list — there is no `{GET}`
default. -/
theorem config_methods_nonempty (content : Str) :
    (∀ r ∈ (parse_config_string content).routes, r.methods ≠ []) ∧
      ∀ vh ∈ (parse_config_string content).vhosts, ∀ r ∈ vh.routes,
        r.methods ≠ [] :=
  ⟨fun r hr => ((parse_config_post content).2.2.1 r hr).1,
    fun vh hvh r hr => ((parse_config_post content).2.2.2 vh hvh r hr).1⟩

theorem config_methods_nonempty_witness :
    (⟨chars "/", [chars "GET"], chars "www", some (chars "index.html"),
        false, none, none⟩ : RouteConfig).methods ≠ [] :=
  (config_methods_nonempty
    (chars "route / \x7b\nmethods = GET\nroot = www\n\x7d\n")).1 _ (by decide)

/-- C8 counterexample: the parser never checks that a route path begins
with `/`; a `route foo { ... }` block is saved with path `foo`. -/
theorem route_path_without_slash_saved :
    (parse_config_string
        (chars "listen = 127.0.0.1:1\nroute foo \x7b\nmethods = get\nroot = www\n\x7d\n")).routes =
        [⟨chars "foo", [chars "GET"], chars "www", some (chars "index.html"),
          false, none, none⟩] ∧
      startsWithSub (chars "foo") (chars "/") = false := by
  decide

/-- C8 amended: for every configuration text, the returned config has a
non-empty, duplicate-free `listen_addresses` (defaulting to
`127.0.0.1:8080`), and every saved route (global or vhost) has a
non-empty root or a redirect; route paths are NOT required to begin with
`/` (the parser never checks this). -/
theorem config_invariants_amended (content : Str) :
    (parse_config_string content).listen_addresses ≠ [] ∧
      (parse_config_string content).listen_addresses.Nodup ∧
      (∀ r ∈ (parse_config_string content).routes,
        r.root ≠ [] ∨ r.redirect ≠ none) ∧
      ∀ vh ∈ (parse_config_string content).vhosts, ∀ r ∈ vh.routes,
        r.root ≠ [] ∨ r.redirect ≠ none :=
  ⟨(parse_config_post content).1, (parse_config_post content).2.1,
    fun r hr => ((parse_config_post content).2.2.1 r hr).2,
    fun vh hvh r hr => ((parse_config_post content).2.2.2 vh hvh r hr).2⟩

theorem config_invariants_amended_witness :
    (parse_config_string (chars "x")).listen_addresses ≠ [] ∧
      ((⟨chars "/", [chars "GET"], chars "www", some (chars "index.html"),
          false, none, none⟩ : RouteConfig).root ≠ [] ∨
        (⟨chars "/", [chars "GET"], chars "www", some (chars "index.html"),
          false, none, none⟩ : RouteConfig).redirect ≠ none) :=
  ⟨(config_invariants_amended (chars "x")).1,
    (config_invariants_amended
      (chars "route / \x7b\nmethods = GET\nroot = www\n\x7d\n")).2.2.1 _ (by decide)⟩

/-! ## C6: CGI output parsing -/

theorem cgiHeaderLine_cases (resp : HttpResponse) (line : Str) :
    (cgiStatusOf line = none →
        (cgiHeaderLine resp line).status_code = resp.status_code ∧
          (cgiHeaderLine resp line).status_text = resp.status_text) ∧
      (∀ n t, cgiStatusOf line = some (n, t) →
        (cgiHeaderLine resp line).status_code = n ∧
          (cgiHeaderLine resp line).status_text = t) ∧
      (∀ k v, (k, v) ∈ (cgiHeaderLine resp line).headers →
        (k, v) ∈ resp.headers ∨
          (cgiKeyOf line = some k ∧ cgiValOf line = some v ∧
            eqIgnoreAsciiCase k (chars "Status") = false)) ∧
      ∀ k0, cgiKeyOf line ≠ some k0 →
        getA (cgiHeaderLine resp line).headers k0 = getA resp.headers k0 := by
  unfold cgiHeaderLine cgiStatusOf cgiKeyOf cgiValOf
  dsimp only
  by_cases hl : trimChars line = []
  · simp [hl]
  · rw [if_neg hl, if_neg hl, if_neg hl, if_neg hl]
    cases hsp : splitOnceCh (Char.ofNat 58) (trimChars line) with
    | none => simp
    | some p =>
      obtain ⟨k, v⟩ := p
      dsimp only
      by_cases hst : eqIgnoreAsciiCase (trimChars k) (chars "Status") = true
      · rw [if_pos hst, if_pos hst]
        cases hq : splitOnceCh (Char.ofNat 32) (trimChars v) with
        | none =>
          exact ⟨fun _ => ⟨rfl, rfl⟩, fun n t hc => absurd hc (by simp),
            fun k2 v2 h => Or.inl h, fun k0 _ => rfl⟩
        | some q =>
          obtain ⟨cs, text⟩ := q
          dsimp only
          cases hp : parseU16 cs with
          | none =>
            exact ⟨fun _ => ⟨rfl, rfl⟩, fun n t hc => absurd hc (by simp),
              fun k2 v2 h => Or.inl h, fun k0 _ => rfl⟩
          | some n =>
            refine ⟨fun hc => absurd hc (by simp), ?_,
              fun k2 v2 h => Or.inl h, fun k0 _ => rfl⟩
            intro n2 t2 hc
            simp only [Option.map_some'] at hc
            injection hc with hc2
            rw [Prod.mk.injEq] at hc2
            obtain ⟨rfl, rfl⟩ := hc2
            exact ⟨rfl, rfl⟩
      · rw [if_neg hst, if_neg hst]
        have hstf : eqIgnoreAsciiCase (trimChars k) (chars "Status") = false := by
          cases hb : eqIgnoreAsciiCase (trimChars k) (chars "Status") with
          | false => rfl
          | true => exact absurd hb hst
        refine ⟨fun _ => ⟨rfl, rfl⟩, ?_, ?_, ?_⟩
        · intro n t hcontra
          exact absurd hcontra (by simp)
        · intro k2 v2 hmem
          rcases mem_insertA _ _ _ _ _ hmem with hmem | ⟨rfl, rfl⟩
          · exact Or.inl hmem
          · exact Or.inr ⟨rfl, rfl, hstf⟩
        · intro k0 hk0
          have hne : ¬ (trimChars k = k0) := by
            intro hkk
            exact hk0 (by rw [hkk])
          unfold HttpResponse.set_header
          dsimp only
          rw [getA_insertA]
          rw [if_neg hne]

theorem cgiFold_status_none (lines : List Str) :
    ∀ resp, (∀ ln ∈ lines, cgiStatusOf ln = none) →
      (lines.foldl cgiHeaderLine resp).status_code = resp.status_code ∧
        (lines.foldl cgiHeaderLine resp).status_text = resp.status_text := by
  induction lines with
  | nil => exact fun resp _ => ⟨rfl, rfl⟩
  | cons a rest ih =>
    intro resp hall
    have ha := (cgiHeaderLine_cases resp a).1 (hall a (List.mem_cons_self _ _))
    have hr := ih (cgiHeaderLine resp a) fun ln h => hall ln (List.mem_cons_of_mem _ h)
    exact ⟨hr.1.trans ha.1, hr.2.trans ha.2⟩

theorem cgiFold_status_set (pre : List Str) (resp : HttpResponse) (ln : Str)
    (post : List Str) (n : Nat) (t : Str) (hstat : cgiStatusOf ln = some (n, t))
    (hpost : ∀ m ∈ post, cgiStatusOf m = none) :
    ((pre ++ ln :: post).foldl cgiHeaderLine resp).status_code = n ∧
      ((pre ++ ln :: post).foldl cgiHeaderLine resp).status_text = t := by
  rw [List.foldl_append, List.foldl_cons]
  have hset := (cgiHeaderLine_cases (pre.foldl cgiHeaderLine resp) ln).2.1 n t hstat
  have hkeep := cgiFold_status_none post
    (cgiHeaderLine (pre.foldl cgiHeaderLine resp) ln) hpost
  exact ⟨hkeep.1.trans hset.1, hkeep.2.trans hset.2⟩

theorem cgiFold_mem (lines : List Str) :
    ∀ resp k v, (k, v) ∈ (lines.foldl cgiHeaderLine resp).headers →
      (k, v) ∈ resp.headers ∨
        ∃ ln ∈ lines, cgiKeyOf ln = some k ∧ cgiValOf ln = some v ∧
          eqIgnoreAsciiCase k (chars "Status") = false := by
  induction lines with
  | nil => exact fun resp k v h => Or.inl h
  | cons a rest ih =>
    intro resp k v h
    rcases ih (cgiHeaderLine resp a) k v h with h2 | ⟨ln, hln, hkv⟩
    · rcases (cgiHeaderLine_cases resp a).2.2.1 k v h2 with h3 | h3
      · exact Or.inl h3
      · exact Or.inr ⟨a, List.mem_cons_self _ _, h3⟩
    · exact Or.inr ⟨ln, List.mem_cons_of_mem _ hln, hkv⟩

theorem cgiFold_getA (lines : List Str) :
    ∀ resp k0, (∀ ln ∈ lines, cgiKeyOf ln ≠ some k0) →
      getA (lines.foldl cgiHeaderLine resp).headers k0 = getA resp.headers k0 := by
  induction lines with
  | nil => exact fun resp k0 _ => rfl
  | cons a rest ih =>
    intro resp k0 hall
    have hr := ih (cgiHeaderLine resp a) k0 fun ln h => hall ln (List.mem_cons_of_mem _ h)
    have ha := (cgiHeaderLine_cases resp a).2.2.2 k0 (hall a (List.mem_cons_self _ _))
    exact hr.trans ha

theorem buildCgi_props (stdout stderr : Bytes) (hne : ¬ stdout = [])
    (head : Str) (body : Bytes)
    (hsplit : extract_cgi_headers_body stdout = (head, body)) :
    cgiRespProps stdout stderr head body := by
  unfold cgiRespProps buildCgiResponse
  rw [if_neg hne, hsplit]
  dsimp only
  set resp := (rustLines head).foldl cgiHeaderLine HttpResponse.ok with hresp
  have hmem0 : ∀ k v, (k, v) ∈ resp.headers →
      (∃ ln ∈ rustLines head, cgiKeyOf ln = some k ∧ cgiValOf ln = some v) ∧
        eqIgnoreAsciiCase k (chars "Status") = false := by
    intro k v h
    rcases cgiFold_mem (rustLines head) HttpResponse.ok k v h with h2 | ⟨ln, hln, h3⟩
    · exact absurd h2 (by simp [HttpResponse.ok, HttpResponse.new])
    · exact ⟨⟨ln, hln, h3.1, h3.2.1⟩, h3.2.2⟩
  refine ⟨?_, ?_, ?_, ?_, ?_, ?_⟩
  · split <;> rfl
  · intro k v hmem
    split at hmem
    · exact (hmem0 k v hmem).2
    · rcases mem_insertA _ _ _ _ _ hmem with hmem | ⟨rfl, rfl⟩
      · exact (hmem0 k v hmem).2
      · decide
  · intro hnoCT
    have hget : getA resp.headers (chars "Content-Type") = none :=
      (cgiFold_getA (rustLines head) HttpResponse.ok (chars "Content-Type")
        hnoCT).trans rfl
    rw [show (if (getA resp.headers (chars "Content-Type")).isSome then resp
        else resp.set_header (chars "Content-Type")
          (chars "text/plain; charset=utf-8")) =
        resp.set_header (chars "Content-Type") (chars "text/plain; charset=utf-8") by
      rw [hget]
      rfl]
    unfold HttpResponse.set_header HttpResponse.set_body_bytes
    dsimp only
    rw [getA_insertA]
    rw [if_pos rfl]
  · intro k v hmem
    split at hmem
    · exact Or.inl (hmem0 k v hmem).1
    · rcases mem_insertA _ _ _ _ _ hmem with hmem | ⟨rfl, rfl⟩
      · exact Or.inl (hmem0 k v hmem).1
      · exact Or.inr ⟨rfl, rfl⟩
  · intro pre ln post n t hline hstat hpost
    have hs := cgiFold_status_set pre HttpResponse.ok ln post n t hstat hpost
    rw [← hline] at hs
    rw [← hresp] at hs
    constructor
    · split <;> exact hs.1
    · split <;> exact hs.2
  · intro hall
    have hs := cgiFold_status_none (rustLines head) HttpResponse.ok hall
    rw [← hresp] at hs
    constructor
    · split <;> exact hs.1
    · split <;> exact hs.2

/-- C6: for every non-empty accumulated CGI stdout, the response is built
by splitting at the first `\r\n\r\n` (or, failing that, the first
`\n\n`); the bytes after the split are the body; each line before the
split contributes a `Key: Value` header; a parsed `Status: <code> <text>`
line sets the status code and text instead of being stored as a header
(no stored header key is case-insensitively `Status`); and if no line
yields a `Content-Type` key the response carries
`Content-Type: text/plain; charset=utf-8`. -/
theorem cgi_output_parsing (stdout stderr : Bytes) (hne : ¬ stdout = []) :
    (∀ p, findSeqPos [13, 10, 13, 10] stdout = some p →
      cgiRespProps stdout stderr (utf8DecodeLossy (stdout.take p))
        (stdout.drop (p + 4))) ∧
      (findSeqPos [13, 10, 13, 10] stdout = none →
        ∀ q, findSeqPos [10, 10] stdout = some q →
          cgiRespProps stdout stderr (utf8DecodeLossy (stdout.take q))
            (stdout.drop (q + 2))) := by
  constructor
  · intro p hp
    apply buildCgi_props stdout stderr hne
    unfold extract_cgi_headers_body
    rw [hp]
  · intro hnone q hq
    apply buildCgi_props stdout stderr hne
    unfold extract_cgi_headers_body
    rw [hnone, hq]

theorem cgi_output_parsing_witness :
    (buildCgiResponse (bytes "X-A: y\r\n\r\nhello") []).body = bytes "hello" :=
  ((cgi_output_parsing (bytes "X-A: y\r\n\r\nhello") [] (by decide)).1 6 (by decide)).1

/-! ## C1 and C10: the incremental request parser -/

theorem parseDigitsAux_app (dv : Char → Option Nat) (radix : Nat) (a b : Str) :
    ∀ acc, parseDigitsAux dv radix (a ++ b) acc =
      match parseDigitsAux dv radix a acc with
      | some acc2 => parseDigitsAux dv radix b acc2
      | none => none := by
  induction a with
  | nil => intro acc; rfl
  | cons c a2 ih =>
    intro acc
    have hL : parseDigitsAux dv radix ((c :: a2) ++ b) acc =
        match dv c with
        | some d => parseDigitsAux dv radix (a2 ++ b) (acc * radix + d)
        | none => none := rfl
    have hR : parseDigitsAux dv radix (c :: a2) acc =
        match dv c with
        | some d => parseDigitsAux dv radix a2 (acc * radix + d)
        | none => none := rfl
    rw [hL, hR]
    cases dv c with
    | none => rfl
    | some d =>
      dsimp only
      exact ih _

theorem hexDigitVal_code (d : Nat) (h : d < 16) :
    hexDigitVal (Char.ofNat (hexCharCode d)) = some d := by
  interval_cases d <;> decide

theorem hexCharCode_props (d : Nat) (h : d < 16) :
    hexCharCode d < 0x80 ∧ hexCharCode d ≠ 13 ∧ hexCharCode d ≠ 10 ∧
      Char.ofNat (hexCharCode d) ≠ Char.ofNat 43 ∧
      isWsChar (Char.ofNat (hexCharCode d)) = false := by
  interval_cases d <;> exact ⟨by decide, by decide, by decide, by decide, by decide⟩

theorem hexBytesRevFuel_mem (fuel : Nat) :
    ∀ n b, b ∈ hexBytesRevFuel fuel n → ∃ d, d < 16 ∧ b = hexCharCode d := by
  induction fuel with
  | zero => exact fun n b hb => absurd hb (List.not_mem_nil b)
  | succ fuel ih =>
    intro n b hb
    unfold hexBytesRevFuel at hb
    by_cases h0 : n = 0
    · rw [if_pos h0] at hb
      exact absurd hb (List.not_mem_nil b)
    · rw [if_neg h0] at hb
      rcases List.mem_cons.mp hb with rfl | hb
      · exact ⟨n % 16, Nat.mod_lt _ (by norm_num), rfl⟩
      · exact ih _ b hb

theorem hexSizeBytes_mem (n b : Nat) (hb : b ∈ hexSizeBytes n) :
    ∃ d, d < 16 ∧ b = hexCharCode d := by
  unfold hexSizeBytes at hb
  by_cases h0 : n = 0
  · rw [if_pos h0] at hb
    rcases List.mem_singleton.mp hb with rfl
    exact ⟨0, by norm_num, rfl⟩
  · rw [if_neg h0] at hb
    exact hexBytesRevFuel_mem _ _ b (List.mem_reverse.mp hb)

theorem utf8DecodeFuel_ascii (fuel : Nat) :
    ∀ bs : Bytes, bs.length ≤ fuel → (∀ b ∈ bs, b < 0x80) →
      utf8DecodeFuel fuel bs = some (bs.map Char.ofNat) := by
  induction fuel with
  | zero =>
    intro bs hlen _
    cases bs with
    | nil => rfl
    | cons b rest => simp at hlen
  | succ fuel ih =>
    intro bs hlen h
    cases bs with
    | nil => rfl
    | cons b rest =>
      have hone : utf8DecodeOne b rest = some (Char.ofNat b, rest) := by
        unfold utf8DecodeOne
        rw [if_pos (h b (List.mem_cons_self _ _))]
      unfold utf8DecodeFuel
      rw [hone]
      dsimp only
      rw [ih rest (by simpa using Nat.le_of_succ_le_succ hlen)
        fun x hx => h x (List.mem_cons_of_mem _ hx)]
      rfl

theorem utf8Decode_ascii (bs : Bytes) (h : ∀ b ∈ bs, b < 0x80) :
    utf8Decode bs = some (bs.map Char.ofNat) :=
  utf8DecodeFuel_ascii bs.length bs (le_refl _) h

theorem dropWhile_of_all_false (p : α → Bool) (s : List α)
    (h : ∀ c ∈ s, p c = false) : s.dropWhile p = s := by
  cases s with
  | nil => rfl
  | cons a t =>
    rw [List.dropWhile_cons, if_neg]
    simp [h a (List.mem_cons_self _ _)]

theorem trimChars_of_no_ws (s : Str) (h : ∀ c ∈ s, isWsChar c = false) :
    trimChars s = s := by
  unfold trimChars
  rw [dropWhile_of_all_false _ _ h]
  rw [dropWhile_of_all_false _ _ fun c hc => h c (List.mem_reverse.mp hc)]
  exact List.reverse_reverse s

theorem findSeqPos_crlf_none (l : Bytes) (h : 13 ∉ l) :
    findSeqPos [13, 10] l = none := by
  induction l with
  | nil => rfl
  | cons a rest ih =>
    unfold findSeqPos
    try dsimp only
    rw [if_neg, ih fun hm => h (List.mem_cons_of_mem _ hm)]
    · rfl
    · intro hpre
      obtain ⟨t, ht⟩ := hpre
      have ha : (13 : Nat) = a := by
        simp only [List.cons_append] at ht
        exact (List.cons.injEq _ _ _ _ ▸ ht).1
      exact h (ha ▸ List.mem_cons_self _ _)

theorem findSeqPos_crlf_last (l : Bytes) (h : 13 ∉ l) :
    findSeqPos [13, 10] (l ++ [13]) = none := by
  induction l with
  | nil =>
    unfold findSeqPos
    simp only [List.nil_append]
    try dsimp only
    rw [if_neg]
    · rfl
    · intro hpre
      obtain ⟨t, ht⟩ := hpre
      simp at ht
  | cons a rest ih =>
    rw [List.cons_append]
    unfold findSeqPos
    try dsimp only
    rw [if_neg, ih fun hm => h (List.mem_cons_of_mem _ hm)]
    · rfl
    · intro hpre
      obtain ⟨t, ht⟩ := hpre
      have ha : (13 : Nat) = a := by
        simp only [List.cons_append] at ht
        exact (List.cons.injEq _ _ _ _ ▸ ht).1
      exact h (ha ▸ List.mem_cons_self _ _)

theorem findSeqPos_crlf_append (a b : Bytes) (h : 13 ∉ a) :
    findSeqPos [13, 10] (a ++ 13 :: 10 :: b) = some a.length := by
  induction a with
  | nil =>
    unfold findSeqPos
    simp only [List.nil_append]
    try dsimp only
    rw [if_pos ⟨b, rfl⟩]
    rfl
  | cons x rest ih =>
    rw [List.cons_append]
    unfold findSeqPos
    try dsimp only
    rw [if_neg, ih fun hm => h (List.mem_cons_of_mem _ hm)]
    · rfl
    · intro hpre
      obtain ⟨t, ht⟩ := hpre
      have hx : (13 : Nat) = x := by
        simp only [List.cons_append] at ht
        exact (List.cons.injEq _ _ _ _ ▸ ht).1
      exact h (hx ▸ List.mem_cons_self _ _)

theorem prefix_split (p a b : List α) (hp : p <+: a ++ b)
    (hl : a.length ≤ p.length) : ∃ q, p = a ++ q ∧ q <+: b := by
  have ha : a <+: p :=
    List.prefix_of_prefix_length_le (List.prefix_append a b) hp hl
  obtain ⟨q, hq⟩ := ha
  obtain ⟨t, ht⟩ := hp
  refine ⟨q, hq.symm, t, ?_⟩
  have h2 : a ++ (q ++ t) = a ++ b := by
    rw [← List.append_assoc, hq]
    exact ht
  exact List.append_cancel_left h2

theorem parse_hexRevFuel (fuel : Nat) :
    ∀ n acc, n < fuel →
      parseDigitsAux hexDigitVal 16
          (((hexBytesRevFuel fuel n).reverse).map Char.ofNat) acc =
        some (acc * 16 ^ (hexBytesRevFuel fuel n).length + n) := by
  induction fuel with
  | zero => intro n acc h; omega
  | succ fuel ih =>
    intro n acc h
    by_cases h0 : n = 0
    · subst h0
      show parseDigitsAux hexDigitVal 16
          (((hexBytesRevFuel (fuel + 1) 0).reverse).map Char.ofNat) acc = _
      rw [show hexBytesRevFuel (fuel + 1) 0 = [] from rfl]
      simp [parseDigitsAux]
    · rw [show hexBytesRevFuel (fuel + 1) n =
          if n = 0 then [] else hexCharCode (n % 16) :: hexBytesRevFuel fuel (n / 16)
          from rfl, if_neg h0]
      rw [List.reverse_cons, List.map_append]
      rw [parseDigitsAux_app]
      have hdiv : n / 16 < fuel := by
        have h1 : n / 16 < n := Nat.div_lt_self (Nat.pos_of_ne_zero h0) (by norm_num)
        omega
      rw [ih (n / 16) acc hdiv]
      dsimp only [List.map_cons, List.map_nil, parseDigitsAux]
      rw [hexDigitVal_code (n % 16) (Nat.mod_lt _ (by norm_num))]
      dsimp only [parseDigitsAux]
      rw [List.length_cons, pow_succ]
      have hk : 16 * (n / 16) + n % 16 = n := Nat.div_add_mod n 16
      congr 1
      calc (acc * 16 ^ (hexBytesRevFuel fuel (n / 16)).length + n / 16) * 16 + n % 16
          = acc * (16 ^ (hexBytesRevFuel fuel (n / 16)).length * 16) +
              (16 * (n / 16) + n % 16) := by ring
        _ = acc * (16 ^ (hexBytesRevFuel fuel (n / 16)).length * 16) + n := by rw [hk]

theorem hexSizeBytes_ne_nil (n : Nat) : hexSizeBytes n ≠ [] := by
  unfold hexSizeBytes
  by_cases h0 : n = 0
  · rw [if_pos h0]
    simp
  · rw [if_neg h0]
    unfold hexBytesRevFuel
    rw [if_neg h0]
    simp

theorem parseHex_hexSize (n : Nat) (h : n < 2 ^ 64) :
    parseHexUsize ((hexSizeBytes n).map Char.ofNat) = some n := by
  by_cases h0 : n = 0
  · subst h0
    decide
  · unfold parseHexUsize parseUnsigned
    have hne : (hexSizeBytes n).map Char.ofNat ≠ [] := by
      intro hx
      exact hexSizeBytes_ne_nil n (List.map_eq_nil_iff.mp hx)
    cases hs : (hexSizeBytes n).map Char.ofNat with
    | nil => exact absurd hs hne
    | cons c cs =>
      have hcmem : c ∈ (hexSizeBytes n).map Char.ofNat := by
        rw [hs]
        exact List.mem_cons_self _ _
      obtain ⟨b, hb, rfl⟩ := List.mem_map.mp hcmem
      obtain ⟨d, hd, rfl⟩ := hexSizeBytes_mem n b hb
      have hplus : ¬ Char.ofNat (hexCharCode d) = Char.ofNat 43 :=
        (hexCharCode_props d hd).2.2.2.1
      have hstrip : stripLeadPlus (Char.ofNat (hexCharCode d) :: cs) =
          Char.ofNat (hexCharCode d) :: cs := by
        unfold stripLeadPlus
        dsimp only
        rw [if_neg hplus]
      dsimp only
      rw [hstrip, if_neg (List.cons_ne_nil _ _), ← hs]
      have hparse : parseDigitsAux hexDigitVal 16 ((hexSizeBytes n).map Char.ofNat) 0 =
          some n := by
        unfold hexSizeBytes
        rw [if_neg h0]
        rw [parse_hexRevFuel (n + 1) n 0 (Nat.lt_succ_self n)]
        simp
      rw [hparse]
      dsimp only
      rw [if_pos h]

theorem hexSizeBytes_ascii (n : Nat) : ∀ b ∈ hexSizeBytes n, b < 0x80 := by
  intro b hb
  obtain ⟨d, hd, rfl⟩ := hexSizeBytes_mem n b hb
  exact (hexCharCode_props d hd).1

theorem hexSizeBytes_no_cr (n : Nat) : 13 ∉ hexSizeBytes n := by
  intro hb
  obtain ⟨d, hd, hc⟩ := hexSizeBytes_mem n 13 hb
  exact (hexCharCode_props d hd).2.1 hc.symm

theorem trim_hexSize (n : Nat) :
    trimChars ((hexSizeBytes n).map Char.ofNat) = (hexSizeBytes n).map Char.ofNat := by
  apply trimChars_of_no_ws
  intro c hc
  obtain ⟨b, hb, rfl⟩ := List.mem_map.mp hc
  obtain ⟨d, hd, rfl⟩ := hexSizeBytes_mem n b hb
  exact (hexCharCode_props d hd).2.2.2.2

theorem findSeq_none_of_prefix_cr (l p : Bytes) (hl : 13 ∉ l)
    (hp : p <+: l ++ [13]) : findSeqPos [13, 10] p = none := by
  by_cases hlen : p.length ≤ l.length
  · have hpl : p <+: l :=
      List.prefix_of_prefix_length_le hp (List.prefix_append l [13]) hlen
    exact findSeqPos_crlf_none p fun hm => hl (hpl.subset hm)
  · have hplen : p.length = l.length + 1 := by
      have := hp.length_le
      simp at this
      omega
    have hpeq : p = l ++ [13] := hp.eq_of_length (by simpa using hplen)
    rw [hpeq]
    exact findSeqPos_crlf_last l hl

theorem chunkLoop_encode (cs : List Bytes) :
    ∀ fuel acc, (∀ c ∈ cs, c ≠ [] ∧ c.length < 2 ^ 64) →
      (encodeChunks cs).length < fuel →
      chunkLoop fuel (encodeChunks cs) acc = some (acc ++ concatAll cs) := by
  induction cs with
  | nil =>
    intro fuel acc _ hfuel
    cases fuel with
    | zero => omega
    | succ f =>
      rw [show concatAll ([] : List Bytes) = [] from rfl, List.append_nil]
      rfl
  | cons c rest ih =>
    intro fuel acc hcs hfuel
    cases fuel with
    | zero => omega
    | succ f =>
      obtain ⟨hcne, hclt⟩ := hcs c (List.mem_cons_self _ _)
      have hdata : encodeChunks (c :: rest) =
          hexSizeBytes c.length ++
            13 :: 10 :: (c ++ 13 :: 10 :: encodeChunks rest) := by
        simp [encodeChunks, encodeChunk, List.append_assoc]
      have hfind : findSeqPos [13, 10] (encodeChunks (c :: rest)) =
          some (hexSizeBytes c.length).length := by
        rw [hdata]
        exact findSeqPos_crlf_append _ _ (hexSizeBytes_no_cr c.length)
      have htake : (encodeChunks (c :: rest)).take (hexSizeBytes c.length).length =
          hexSizeBytes c.length := by
        rw [hdata, List.take_append_eq_append_take, List.take_length,
          Nat.sub_self]
        simp
      have hdrop : (encodeChunks (c :: rest)).drop ((hexSizeBytes c.length).length + 2) =
          c ++ 13 :: 10 :: encodeChunks rest := by
        rw [hdata]
        rw [show hexSizeBytes c.length ++ 13 :: 10 :: (c ++ 13 :: 10 :: encodeChunks rest) =
            (hexSizeBytes c.length ++ [13, 10]) ++ (c ++ 13 :: 10 :: encodeChunks rest) by
          simp]
        rw [show (hexSizeBytes c.length).length + 2 =
            (hexSizeBytes c.length ++ [13, 10]).length by simp]
        exact List.drop_left _ _
      have hlen : (encodeChunks (c :: rest)).length =
          (hexSizeBytes c.length).length + 2 + c.length + 2 +
            (encodeChunks rest).length := by
        rw [hdata]
        simp
        omega
      rw [show chunkLoop (f + 1) (encodeChunks (c :: rest)) acc =
          (match findSeqPos [13, 10] (encodeChunks (c :: rest)) with
          | none => none
          | some lineEnd =>
            match utf8Decode ((encodeChunks (c :: rest)).take lineEnd) with
            | none => none
            | some sizeStr =>
              match parseHexUsize (trimChars sizeStr) with
              | none => none
              | some size =>
                if size = 0 then some acc
                else if lineEnd + 2 + size + 2 > (encodeChunks (c :: rest)).length then
                  none
                else
                  chunkLoop f (((encodeChunks (c :: rest)).drop (lineEnd + 2)).drop (size + 2))
                    (acc ++ ((encodeChunks (c :: rest)).drop (lineEnd + 2)).take size))
          from rfl]
      rw [hfind]
      dsimp only
      rw [htake, utf8Decode_ascii _ (hexSizeBytes_ascii c.length)]
      dsimp only
      rw [trim_hexSize, parseHex_hexSize c.length hclt]
      dsimp only
      rw [if_neg (by simpa using hcne)]
      rw [if_neg (by omega)]
      rw [hdrop]
      rw [show c ++ 13 :: 10 :: encodeChunks rest =
          (c ++ [13, 10]) ++ encodeChunks rest by simp]
      rw [show c.length + 2 = (c ++ [13, 10]).length by simp]
      rw [List.drop_left, List.take_append_eq_append_take, List.take_left]
      have h00 : List.length c - List.length (c ++ [13, 10]) = 0 := by
        simp
      rw [h00, List.take_zero, List.append_nil]
      have hfuel2 : (encodeChunks rest).length < f := by omega
      rw [ih f (acc ++ c) (fun x hx => hcs x (List.mem_cons_of_mem _ hx)) hfuel2]
      rw [List.append_assoc]
      rfl

theorem chunkLoop_succ (f : Nat) (data acc : Bytes) :
    chunkLoop (f + 1) data acc =
      (match findSeqPos [13, 10] data with
      | none => none
      | some lineEnd =>
        match utf8Decode (data.take lineEnd) with
        | none => none
        | some sizeStr =>
          match parseHexUsize (trimChars sizeStr) with
          | none => none
          | some size =>
            if size = 0 then some acc
            else if lineEnd + 2 + size + 2 > data.length then none
            else chunkLoop f ((data.drop (lineEnd + 2)).drop (size + 2))
              (acc ++ (data.drop (lineEnd + 2)).take size)) := rfl

theorem chunkLoop_truncated (cs : List Bytes) :
    ∀ (p : Bytes) fuel acc, (∀ c ∈ cs, c ≠ [] ∧ c.length < 2 ^ 64) →
      p <+: encodeChunks cs → p ≠ encodeChunks cs →
      chunkLoop fuel p acc = none := by
  induction cs with
  | nil =>
    intro p fuel acc _ hpre hne
    have hlen : p.length < 3 := by
      have h1 := hpre.length_le
      rcases Nat.lt_or_ge p.length 3 with h | h
      · exact h
      · have : p.length = 3 := by
          simpa [encodeChunks] using Nat.le_antisymm (by simpa [encodeChunks] using h1) h
        exact absurd (hpre.eq_of_length (by simpa [encodeChunks] using this)) hne
    have hp2 : p <+: ([48, 13] : Bytes) := by
      refine List.prefix_of_prefix_length_le hpre (by decide) ?_
      simpa using Nat.lt_succ_iff.mp hlen
    have hfind : findSeqPos [13, 10] p = none := by
      refine findSeq_none_of_prefix_cr [48] p (by decide) ?_
      simpa using hp2
    cases fuel with
    | zero => rfl
    | succ f =>
      rw [chunkLoop_succ, hfind]
  | cons c rest ih =>
    intro p fuel acc hcs hpre hne
    obtain ⟨hcne, hclt⟩ := hcs c (List.mem_cons_self _ _)
    have hdata : encodeChunks (c :: rest) =
        hexSizeBytes c.length ++
          13 :: 10 :: (c ++ 13 :: 10 :: encodeChunks rest) := by
      simp [encodeChunks, encodeChunk, List.append_assoc]
    by_cases hlen : p.length ≤ (hexSizeBytes c.length).length + 1
    · have hpfx2 : (hexSizeBytes c.length ++ [13] : Bytes) <+:
          encodeChunks (c :: rest) := by
        rw [hdata]
        refine ⟨10 :: (c ++ 13 :: 10 :: encodeChunks rest), ?_⟩
        simp
      have hp2 : p <+: hexSizeBytes c.length ++ [13] := by
        refine List.prefix_of_prefix_length_le hpre hpfx2 ?_
        simpa using hlen
      have hfind : findSeqPos [13, 10] p = none :=
        findSeq_none_of_prefix_cr _ p (hexSizeBytes_no_cr c.length) hp2
      cases fuel with
      | zero => rfl
      | succ f =>
        rw [chunkLoop_succ, hfind]
    · have hsplit1 : ∃ q, p = (hexSizeBytes c.length ++ [13, 10]) ++ q ∧
          q <+: c ++ 13 :: 10 :: encodeChunks rest := by
        apply prefix_split
        · have hx : (hexSizeBytes c.length ++ [13, 10]) ++
              (c ++ 13 :: 10 :: encodeChunks rest) = encodeChunks (c :: rest) := by
            rw [hdata]
            simp
          rw [hx]
          exact hpre
        · simp
          omega
      obtain ⟨q, rfl, hq⟩ := hsplit1
      have hfind : findSeqPos [13, 10]
          ((hexSizeBytes c.length ++ [13, 10]) ++ q) =
          some (hexSizeBytes c.length).length := by
        rw [show (hexSizeBytes c.length ++ [13, 10]) ++ q =
            hexSizeBytes c.length ++ 13 :: 10 :: q by simp]
        exact findSeqPos_crlf_append _ _ (hexSizeBytes_no_cr c.length)
      cases fuel with
      | zero => rfl
      | succ f =>
        rw [chunkLoop_succ, hfind]
        dsimp only
        have htake : ((hexSizeBytes c.length ++ [13, 10]) ++ q).take
            (hexSizeBytes c.length).length = hexSizeBytes c.length := by
          rw [List.append_assoc]
          exact List.take_left _ _
        rw [htake, utf8Decode_ascii _ (hexSizeBytes_ascii c.length)]
        dsimp only
        rw [trim_hexSize, parseHex_hexSize c.length hclt]
        dsimp only
        rw [if_neg (by simpa using hcne)]
        have hdrop : ((hexSizeBytes c.length ++ [13, 10]) ++ q).drop
            ((hexSizeBytes c.length).length + 2) = q := by
          rw [show (hexSizeBytes c.length).length + 2 =
              (hexSizeBytes c.length ++ [13, 10]).length by simp]
          exact List.drop_left _ _
        by_cases hbig : (hexSizeBytes c.length).length + 2 + c.length + 2 >
            ((hexSizeBytes c.length ++ [13, 10]) ++ q).length
        · rw [if_pos hbig]
        · rw [if_neg hbig]
          have hqlen : c.length + 2 ≤ q.length := by
            simp at hbig
            omega
          have hsplit2 : ∃ q2, q = (c ++ [13, 10]) ++ q2 ∧
              q2 <+: encodeChunks rest := by
            apply prefix_split
            · rw [show (c ++ [13, 10]) ++ encodeChunks rest =
                  c ++ 13 :: 10 :: encodeChunks rest by simp]
              exact hq
            · simp
              omega
          obtain ⟨q2, rfl, hq2⟩ := hsplit2
          have hq2ne : q2 ≠ encodeChunks rest := by
            intro hx
            apply hne
            rw [hx, hdata]
            simp
          rw [hdrop]
          rw [List.take_append_eq_append_take, List.take_left]
          have h00 : List.length c - List.length (c ++ [13, 10]) = 0 := by
            simp
          rw [h00, List.take_zero, List.append_nil]
          rw [show c.length + 2 = (c ++ [13, 10]).length by simp]
          rw [List.drop_left]
          exact ih q2 f (acc ++ c) (fun x hx => hcs x (List.mem_cons_of_mem _ hx))
            hq2 hq2ne

/-- C1: when the header terminator is present, the header section decodes,
and the request line parses, `HttpRequest.parse` behaves as follows: with a
`Content-Length` header whose value parses as `L`, it returns `none` when
fewer than `L` body bytes follow the terminator and otherwise a request
whose body is exactly the `L` bytes starting past the terminator; with no
`Content-Length` but a `Transfer-Encoding` containing `chunked`
(case-insensitive), a complete well-formed chunk stream yields a request
whose body is the concatenation of the chunk payloads, and any strict
truncation of that stream yields `none`. -/
theorem parse_body_semantics (buffer : Bytes) (he : Nat) (text : Str)
    (fl : Str) (rl : RequestLine) (hs : List (Str × Str))
    (hfind : find_double_crlf buffer = some he)
    (hdec : utf8Decode (buffer.take he) = some text)
    (hfl : (rustLines text).head? = some fl)
    (hrl : parse_request_line fl = some rl)
    (hhs : parse_headers ((rustLines text).drop 1) = hs) :
    (∀ lstr L, getA hs (chars "Content-Length") = some lstr →
      parseUsize lstr = some L →
      (buffer.length - (he + 4) < L → HttpRequest.parse buffer = none) ∧
      (L ≤ buffer.length - (he + 4) →
        HttpRequest.parse buffer =
          some ⟨rl.method, rl.path, rl.query, rl.version, hs,
            (buffer.drop (he + 4)).take L⟩)) ∧
    (∀ te, getA hs (chars "Content-Length") = none →
      getA hs (chars "Transfer-Encoding") = some te →
      containsSub (toLowerStr te) (chars "chunked") = true →
      ∀ cs : List Bytes, (∀ c ∈ cs, c ≠ [] ∧ c.length < 2 ^ 64) →
        (buffer.drop (he + 4) = encodeChunks cs →
          HttpRequest.parse buffer =
            some ⟨rl.method, rl.path, rl.query, rl.version, hs, concatAll cs⟩) ∧
        (buffer.drop (he + 4) <+: encodeChunks cs →
          buffer.drop (he + 4) ≠ encodeChunks cs →
          HttpRequest.parse buffer = none)) := by
  constructor
  · intro lstr L hcl hLp
    constructor
    · intro hlt
      unfold HttpRequest.parse
      rw [hfind]
      dsimp only
      rw [hdec]
      dsimp only
      rw [hfl]
      dsimp only
      rw [hrl]
      dsimp only
      rw [hhs, hcl]
      dsimp only
      rw [hLp]
      dsimp only
      rw [if_pos hlt]
    · intro hge
      unfold HttpRequest.parse
      rw [hfind]
      dsimp only
      rw [hdec]
      dsimp only
      rw [hfl]
      dsimp only
      rw [hrl]
      dsimp only
      rw [hhs, hcl]
      dsimp only
      rw [hLp]
      dsimp only
      rw [if_neg (Nat.not_lt.mpr hge)]
  · intro te hclnone hte hchunked cs hcs
    constructor
    · intro hbody
      unfold HttpRequest.parse
      rw [hfind]
      dsimp only
      rw [hdec]
      dsimp only
      rw [hfl]
      dsimp only
      rw [hrl]
      dsimp only
      rw [hhs, hclnone]
      dsimp only
      rw [hte]
      dsimp only
      rw [if_pos hchunked]
      rw [hbody]
      have hpc : parse_chunked_from_buffer (encodeChunks cs) = some (concatAll cs) := by
        unfold parse_chunked_from_buffer
        rw [chunkLoop_encode cs _ [] hcs (Nat.lt_succ_self _)]
        rw [List.nil_append]
      rw [hpc]
    · intro hpre hne2
      unfold HttpRequest.parse
      rw [hfind]
      dsimp only
      rw [hdec]
      dsimp only
      rw [hfl]
      dsimp only
      rw [hrl]
      dsimp only
      rw [hhs, hclnone]
      dsimp only
      rw [hte]
      dsimp only
      rw [if_pos hchunked]
      have hpc : parse_chunked_from_buffer (buffer.drop (he + 4)) = none := by
        unfold parse_chunked_from_buffer
        exact chunkLoop_truncated cs _ _ [] hcs hpre hne2
      rw [hpc]

/-- Witness for C1: a concrete buffer with `Content-Length: 3` and five body
bytes yields a request whose body is exactly the first three body bytes. -/
theorem parse_body_semantics_witness :
    find_double_crlf (bytes "POST /a HTTP/1.1\r\nContent-Length: 3\r\n\r\nabcde") =
      some 35 ∧
    (3 : Nat) ≤
      (bytes "POST /a HTTP/1.1\r\nContent-Length: 3\r\n\r\nabcde").length - (35 + 4) ∧
    HttpRequest.parse (bytes "POST /a HTTP/1.1\r\nContent-Length: 3\r\n\r\nabcde") =
      some ⟨chars "POST", chars "/a", [], chars "HTTP/1.1",
        [(chars "Content-Length", chars "3")],
        ((bytes "POST /a HTTP/1.1\r\nContent-Length: 3\r\n\r\nabcde").drop (35 + 4)).take 3⟩ :=
  ⟨by decide, by decide,
    ((parse_body_semantics (bytes "POST /a HTTP/1.1\r\nContent-Length: 3\r\n\r\nabcde") 35
        (chars "POST /a HTTP/1.1\r\nContent-Length: 3")
        (chars "POST /a HTTP/1.1")
        ⟨chars "POST", chars "/a", [], chars "HTTP/1.1"⟩
        [(chars "Content-Length", chars "3")]
        (by decide) (by decide) (by decide) (by decide) (by decide)).1
      (chars "3") 3 (by decide) (by decide)).2 (by decide)⟩

/-- C10: header lookups in `HttpRequest::parse` are exact-case: when the
terminator is present, the header section decodes, the request line parses,
and the parsed header map has no key spelled exactly `Content-Length` and
none spelled exactly `Transfer-Encoding`, parse immediately returns a
complete request with an empty body (so a `content-length: N` field is
ignored and the parser never waits for `N` more bytes). -/
theorem parse_exact_case_lookups (buffer : Bytes) (he : Nat) (text : Str)
    (fl : Str) (rl : RequestLine) (hs : List (Str × Str))
    (hfind : find_double_crlf buffer = some he)
    (hdec : utf8Decode (buffer.take he) = some text)
    (hfl : (rustLines text).head? = some fl)
    (hrl : parse_request_line fl = some rl)
    (hhs : parse_headers ((rustLines text).drop 1) = hs)
    (hcl : getA hs (chars "Content-Length") = none)
    (hte : getA hs (chars "Transfer-Encoding") = none) :
    HttpRequest.parse buffer =
      some ⟨rl.method, rl.path, rl.query, rl.version, hs, []⟩ := by
  unfold HttpRequest.parse
  rw [hfind]
  dsimp only
  rw [hdec]
  dsimp only
  rw [hfl]
  dsimp only
  rw [hrl]
  dsimp only
  rw [hhs, hcl]
  dsimp only
  rw [hte]

/-- Witness for C10: a buffer with a lowercase `content-length: 5` field and
no body bytes parses completely with an empty body. -/
theorem parse_exact_case_lookups_witness :
    getA [(chars "content-length", chars "5")] (chars "Content-Length") = none ∧
    HttpRequest.parse (bytes "POST / HTTP/1.1\r\ncontent-length: 5\r\n\r\n") =
      some ⟨chars "POST", chars "/", [], chars "HTTP/1.1",
        [(chars "content-length", chars "5")], []⟩ :=
  ⟨by decide,
    parse_exact_case_lookups (bytes "POST / HTTP/1.1\r\ncontent-length: 5\r\n\r\n") 34
      (chars "POST / HTTP/1.1\r\ncontent-length: 5")
      (chars "POST / HTTP/1.1")
      ⟨chars "POST", chars "/", [], chars "HTTP/1.1"⟩
      [(chars "content-length", chars "5")]
      (by decide) (by decide) (by decide) (by decide) (by decide) (by decide)
      (by decide)⟩
